import Mathlib

/-!
Verification development for the query-understanding and ranking pipeline of the
Smart-Inventory backend.  The definitions below are a shallow embedding of the
Python modules `app/services/semantic_parser_agent.py`,
`app/services/matcher_agent.py` and `app/services/reason_agent.py`.

Modelling conventions:
* Python floats are modelled as exact rationals (`ℚ`).
* Python `None` is `Option.none`; code that can raise returns `Except String _`.
* The external text-completion collaborator is modelled by passing its replies
  (`Option String`, `none` for a failed call) as explicit arguments.
* The standard-library `json.loads` and the module-level regular expression
  `_JSON_FENCE_RE` are external collaborators of the embedded code; they are
  passed as explicit function arguments (`jp`, `fence`).
-/

set_option maxHeartbeats 1000000

/-! ### Python string semantics helpers -/

/-- Whitespace characters recognised by Python's `str.split()` / `str.strip()` / `\s`. -/
def pySpace (c : Char) : Bool :=
  c == ' ' || c == '\t' || c == '\n' || c == '\r' || c == '\x0b' || c == '\x0c'

/-- Substring containment on character lists (`sub` occurs contiguously in the list). -/
def pyInL (sub : List Char) : List Char → Bool
  | [] => sub.isEmpty
  | c :: cs => sub.isPrefixOf (c :: cs) || pyInL sub cs

/-- Python `sub in hay` on strings (substring containment). -/
def pyIn (sub hay : String) : Bool :=
  pyInL sub.toList hay.toList

/-- Python `s.strip()` on a character list. -/
def pyStripList (cs : List Char) : List Char :=
  ((cs.dropWhile pySpace).reverse.dropWhile pySpace).reverse

/-- Python `s.strip()`. -/
def pyStrip (s : String) : String :=
  ⟨pyStripList s.toList⟩

/-- Python `s.lower()` (per-character lowering; the strings the pipeline
lowers are ASCII, where this agrees with Python). -/
def pyLower (s : String) : String :=
  ⟨s.toList.map Char.toLower⟩

/-- Python `s.split()` (split on whitespace runs, no empty parts). -/
def pyWords : List Char → List (List Char)
  | [] => []
  | c :: cs =>
    if pySpace c then pyWords cs
    else (c :: cs.takeWhile (fun d => !pySpace d)) :: pyWords (cs.dropWhile (fun d => !pySpace d))
termination_by cs => cs.length
decreasing_by
  · simp
  · have h := (List.dropWhile_suffix (l := cs) (fun d => !pySpace d)).length_le
    simp only [List.length_cons]
    omega

/-- Python `" ".join(ws)` on character lists. -/
def joinSp : List (List Char) → List Char
  | [] => []
  | [w] => w
  | w :: ws => w ++ ' ' :: joinSp ws

/-- Python `s.endswith((".", "!", "?"))`. -/
def endsTerminal (s : String) : Bool :=
  match s.toList.getLast? with
  | some c => c == '.' || c == '!' || c == '?'
  | none => false

/-- Python `s[0].upper() + s[1:]` (capitalisation of the first character). -/
def capFirst (s : String) : String :=
  match s.toList with
  | [] => ""
  | c :: r => ⟨c.toUpper :: r⟩

/-- Python truthiness of an optional string (`None` and `""` are falsy). -/
def truthyS : Option String → Bool
  | none => false
  | some s => !(s == "")

/-- Python truthiness of an optional integer (`None` and `0` are falsy). -/
def truthyI : Option Int → Bool
  | none => false
  | some n => !(n == 0)

/-! ### JSON values and Python dictionaries -/

/-- A parsed JSON value (the possible results of `json.loads`). -/
inductive JVal where
  | jnull
  | jbool (b : Bool)
  | jnum (q : ℚ)
  | jstr (s : String)
  | jarr (xs : List JVal)
  | jobj (kvs : List (String × JVal))

/-- An insertion-ordered Python dictionary with string keys and JSON values. -/
abbrev PyDict := List (String × JVal)

/-- Python `d.get(k)` / `d[k]` lookup. -/
def dGet (d : PyDict) (k : String) : Option JVal :=
  (d.find? (fun kv => kv.1 == k)).map (·.2)

/-- Python `d[k] = v` (replaces in place, else appends; insertion order preserved). -/
def dSet (d : PyDict) (k : String) (v : JVal) : PyDict :=
  match d with
  | [] => [(k, v)]
  | (k', v') :: rest => if k' == k then (k, v) :: rest else (k', v') :: dSet rest k v

/-- Python `d.setdefault(k, v)`. -/
def dSetDefault (d : PyDict) (k : String) (v : JVal) : PyDict :=
  if (dGet d k).isSome then d else d ++ [(k, v)]

/-- Python `v is None`. -/
def isJNull : JVal → Bool
  | .jnull => true
  | _ => false

/-- Python truthiness of a JSON value. -/
def truthyJ : JVal → Bool
  | .jnull => false
  | .jbool b => b
  | .jnum q => !(q == 0)
  | .jstr s => !(s == "")
  | .jarr xs => !xs.isEmpty
  | .jobj kvs => !kvs.isEmpty

/-- Python `v == s` for a string literal `s` (a string equals only an equal string). -/
def jEqStr (v : JVal) (s : String) : Bool :=
  match v with
  | .jstr t => t == s
  | _ => false

/-- Python `str(v)` for the JSON values the pipeline feeds to `str(...)`.
`str` of a list/dict renders its elements; no claim touches those cases. -/
def pyStr : JVal → String
  | .jnull => "None"
  | .jbool b => if b then "True" else "False"
  | .jnum q => if q.den = 1 then toString q.num else toString q
  | .jstr s => s
  | .jarr _ => "<list>"
  | .jobj _ => "<dict>"

/-- Python iteration over a JSON value: lists yield elements, strings yield
one-character strings, dicts yield their keys; other values raise `TypeError`. -/
def jIter : JVal → Except String (List JVal)
  | .jarr xs => .ok xs
  | .jstr s => .ok (s.toList.map (fun c => .jstr ⟨[c]⟩))
  | .jobj kvs => .ok (kvs.map (fun kv => .jstr kv.1))
  | _ => .error "TypeError: object is not iterable"

/-- Insert a string into a Python-set model (list without duplicates). -/
def setInsert (l : List String) (s : String) : List String :=
  if l.contains s then l else l ++ [s]

/-- Python `{u.lower() for u in v if isinstance(u, str)}`. -/
def jStrSet (v : JVal) : Except String (List String) := do
  let xs ← jIter v
  return xs.foldl (fun acc x =>
    match x with
    | .jstr s => setInsert acc (pyLower s)
    | _ => acc) []

/-- Python `x in v` for a string `x` (list membership / substring / dict key);
raises `TypeError` on non-container values. -/
def jContains (v : JVal) (x : String) : Except String Bool :=
  match v with
  | .jarr xs => .ok (xs.any (fun e => jEqStr e x))
  | .jstr t => .ok (pyIn x t)
  | .jobj kvs => .ok (kvs.any (fun kv => kv.1 == x))
  | _ => .error "TypeError: argument of type is not iterable"

/-- Python `v.append(x)`; raises `AttributeError` on non-lists. -/
def jAppend (v : JVal) (x : JVal) : Except String JVal :=
  match v with
  | .jarr xs => .ok (.jarr (xs ++ [x]))
  | _ => .error "AttributeError: object has no attribute append"

/-- Insertion sort of strings in ascending order (Python `sorted` on strings). -/
def insertStr (s : String) : List String → List String
  | [] => [s]
  | t :: ts => if s ≤ t then s :: t :: ts else t :: insertStr s ts

/-- Python `sorted(...)` for a collection of strings. -/
def sortStrs : List String → List String
  | [] => []
  | s :: ss => insertStr s (sortStrs ss)

/-! ### semantic_parser_agent.py -/

/-- The six `setdefault` calls of `_enrich_from_text`
(semantic_parser_agent.py:111-117). -/
def enrichDefaults (d0 : PyDict) : PyDict :=
  let d := dSetDefault d0 "family_size" .jnull
  let d := dSetDefault d "budget_band" .jnull
  let d := dSetDefault d "usage" (.jarr [])
  let d := dSetDefault d "preferences" (.jarr [])
  let d := dSetDefault d "body_type_preference" (.jarr [])
  dSetDefault d "other" (.jobj [])

/-- The family-size block of `_enrich_from_text` (semantic_parser_agent.py:124-130);
`famHit` is the surrounding `any(w in text for w in [...])` test of line 122. -/
def enrichFam (text : String) (famHit : Bool) (d : PyDict) : PyDict :=
  if famHit && isJNull ((dGet d "family_size").getD .jnull) then
    dSet d "family_size"
      (.jnum (if pyIn "small family" text || pyIn "small families" text then 3
              else if pyIn "big family" text || pyIn "large family" text then 5
              else 3))
  else d

/-- The budget-band block of `_enrich_from_text` (semantic_parser_agent.py:132-138). -/
def enrichBudget (text : String) (d : PyDict) : PyDict :=
  if isJNull ((dGet d "budget_band").getD .jnull) then
    if pyIn "mid price range" text || pyIn "mid price" text || pyIn "mid-range" text ||
        pyIn "mid range" text then
      dSet d "budget_band" (.jstr "mid")
    else if pyIn "low budget" text || pyIn "cheap" text || pyIn "entry level" text ||
        pyIn "entry-level" text then
      dSet d "budget_band" (.jstr "low")
    else if pyIn "high budget" text || pyIn "premium" text || pyIn "luxury" text then
      dSet d "budget_band" (.jstr "high")
    else d
  else d

/-- The additions to the `usage` set of `_enrich_from_text`
(semantic_parser_agent.py:122-123, 140-144, 146-147), in source order; the
dict updates interleaved with them in the source never read `usage`, so the
set's final value only depends on its start value and the text. -/
def enrichUsage (text : String) (u0 : List String) : List String :=
  let famHit := pyIn "family" text || pyIn "families" text || pyIn "kids" text
  let usage := if famHit then setInsert u0 "family" else u0
  let usage :=
    if pyIn "daily commute" text || pyIn "daily commuting" text || pyIn "daily driving" text ||
        pyIn "office commute" text || pyIn "city traffic" text || pyIn "city driving" text ||
        pyIn "city use" text then
      setInsert usage "city"
    else usage
  let offHit := pyIn "hiking" text || pyIn "camp" text || pyIn "offroad" text ||
      pyIn "trail" text || pyIn "mountain" text || pyIn "camping" text || pyIn "trails" text
  if offHit then setInsert usage "offroad" else usage

/-- The additions to the `prefs` set of `_enrich_from_text`
(semantic_parser_agent.py:146-159), in source order. -/
def enrichPrefs (text : String) (p0 : List String) : List String :=
  let offHit := pyIn "hiking" text || pyIn "camp" text || pyIn "offroad" text ||
      pyIn "trail" text || pyIn "mountain" text || pyIn "camping" text || pyIn "trails" text
  let prefs := if offHit then setInsert p0 "ruggedness" else p0
  let prefs := if pyIn "comfortable" text || pyIn "comfort" text then
      setInsert prefs "comfort" else prefs
  let prefs := if pyIn "safe" text || pyIn "safety" text then
      setInsert prefs "safety" else prefs
  let prefs := if pyIn "mileage" text || pyIn "fuel efficient" text ||
      pyIn "fuel efficiency" text || pyIn "low fuel cost" text then
      setInsert prefs "fuel_economy" else prefs
  let prefs := if pyIn "powerful" text || pyIn "performance" text || pyIn "sporty" text ||
      pyIn "fast" text then
      setInsert prefs "performance" else prefs
  if pyIn "reliable" text || pyIn "low maintenance" text then
    setInsert prefs "reliability" else prefs

/-- The midsize-car block of `_enrich_from_text` (semantic_parser_agent.py:161-163). -/
def enrichMidsize (text : String) (d : PyDict) : Except String PyDict :=
  if pyIn "midsize car" text || pyIn "mid size car" text || pyIn "mid-size car" text then do
    let btp := (dGet d "body_type_preference").getD .jnull
    let hasSedan ← jContains btp "sedan"
    if !hasSedan then do
      let btp' ← jAppend btp (.jstr "sedan")
      pure (dSet d "body_type_preference" btp')
    else
      pure d
  else
    pure d

/-- The offroad-suv block of `_enrich_from_text` (semantic_parser_agent.py:165-166). -/
def enrichOffroad (usage : List String) (d : PyDict) : Except String PyDict :=
  if usage.contains "offroad" && !truthyJ ((dGet d "body_type_preference").getD .jnull) then do
    let btp' ← jAppend ((dGet d "body_type_preference").getD .jnull) (.jstr "suv")
    pure (dSet d "body_type_preference" btp')
  else
    pure d

/-- Embeds `_enrich_from_text` (semantic_parser_agent.py:103-171): keyword-rule
enrichment of a parsed dict over the lowercased user text; the six
`setdefault` calls are `enrichDefaults`, the two `body_type_preference`
blocks are `enrichMidsize`/`enrichOffroad`. -/
def _enrich_from_text (d0 : PyDict) (user_text : String) : Except String PyDict := do
  let text := pyLower user_text
  let d := enrichDefaults d0
  let usage ← jStrSet ((dGet d "usage").getD .jnull)
  let prefs ← jStrSet ((dGet d "preferences").getD .jnull)
  let famHit := pyIn "family" text || pyIn "families" text || pyIn "kids" text
  let d := enrichFam text famHit d
  let d := enrichBudget text d
  let usage := enrichUsage text usage
  let prefs := enrichPrefs text prefs
  let d ← enrichMidsize text d
  let d ← enrichOffroad usage d
  let d := dSet d "usage" (.jarr ((sortStrs usage).map .jstr))
  let d := dSet d "preferences" (.jarr ((sortStrs prefs).map .jstr))
  return d

/-- State of the brace scanner of `_find_first_balanced_json` (depth counter,
in-string flag, escape flag). -/
structure ScanSt where
  depth : ℤ
  inStr : Bool
  esc : Bool

/-- One iteration of the loop body of `_find_first_balanced_json`
(semantic_parser_agent.py:185-198): toggle the in-string flag on an unescaped
double quote, track the escape flag, and update the depth only when the new
in-string flag is off (the Python `continue`). -/
def scanStep (st : ScanSt) (ch : Char) : ScanSt :=
  let inStr := if ch == '"' && !st.esc then !st.inStr else st.inStr
  let esc := ch == '\\' && !st.esc
  if inStr then { depth := st.depth, inStr := inStr, esc := esc }
  else
    { depth :=
        if ch == '{' then st.depth + 1
        else if ch == '}' then st.depth - 1
        else st.depth,
      inStr := inStr, esc := esc }

/-- The scanning loop of `_find_first_balanced_json`: consume characters,
returning the consumed prefix as soon as the depth reaches zero. -/
def scanLoop (st : ScanSt) (acc : List Char) : List Char → Option (List Char)
  | [] => none
  | c :: cs =>
    let st' := scanStep st c
    if st'.depth == 0 then some (acc ++ [c]) else scanLoop st' (acc ++ [c]) cs

/-- Embeds `_find_first_balanced_json` (semantic_parser_agent.py:174-201). -/
def _find_first_balanced_json (s : String) : Option String :=
  let cs := s.toList.dropWhile (fun c => !(c == '{'))
  match cs with
  | [] => none
  | _ :: _ => (scanLoop ⟨0, false, false⟩ [] cs).map (fun l => (⟨l⟩ : String))

/-- Embeds `re.sub(r",\s*(\}|])", r"\1", s)` from `_attempt_json_load`:
drop a comma (and the following whitespace) that directly precedes a closing
brace or bracket. -/
def stripTrailingCommasL : List Char → List Char
  | [] => []
  | c :: cs =>
    if c == ',' then
      let ws := cs.dropWhile pySpace
      if ws.head? == some '}' || ws.head? == some ']' then stripTrailingCommasL ws
      else ',' :: stripTrailingCommasL cs
    else c :: stripTrailingCommasL cs
termination_by cs => cs.length
decreasing_by
  · have h := (List.dropWhile_suffix (l := cs) pySpace).length_le
    simp only [List.length_cons]
    omega
  · simp
  · simp

/-- String version of `stripTrailingCommasL`. -/
def stripTrailingCommas (s : String) : String :=
  ⟨stripTrailingCommasL s.toList⟩

/-- Embeds `_attempt_json_load` (semantic_parser_agent.py:204-222).  `jp` models
`json.loads` (`none` for a parse failure / raised exception); `none` input
models the `s is None` raise. -/
def _attempt_json_load (jp : String → Option JVal) : Option String → Option JVal
  | none => none
  | some s =>
    match jp s with
    | some v => some v
    | none =>
      match jp (stripTrailingCommas s) with
      | some v => some v
      | none =>
        match _find_first_balanced_json s with
        | some b =>
          match jp b with
          | some v => some v
          | none => jp (stripTrailingCommas b)
        | none => none

/-- Embeds `_normalize_shape` (semantic_parser_agent.py:225-240): raise unless
the value is an object; fill the six required keys with their defaults. -/
def _normalize_shape : JVal → Except String PyDict
  | .jobj kvs =>
    let d := dSetDefault kvs "family_size" .jnull
    let d := dSetDefault d "budget_band" .jnull
    let d := dSetDefault d "usage" (.jarr [])
    let d := dSetDefault d "preferences" (.jarr [])
    let d := dSetDefault d "body_type_preference" (.jarr [])
    let d := dSetDefault d "other" (.jobj [])
    .ok d
  | _ => .error "Parsed JSON is not an object"

/-- Embeds `_simple_heuristic_parse` (semantic_parser_agent.py:243-258). -/
def _simple_heuristic_parse (user_text : String) : Except String PyDict := do
  let parsed : PyDict :=
    [("family_size", .jnull), ("budget_band", .jnull), ("usage", .jarr []),
     ("preferences", .jarr []), ("body_type_preference", .jarr []),
     ("other", .jobj [("heuristic", .jbool true)])]
  let d ← _normalize_shape (.jobj parsed)
  _enrich_from_text d user_text

/-- Embeds the inner `_looks_truncated` of `parse_user_needs` on a present reply. -/
def _looks_truncated_str (s : String) : Bool :=
  if s == "" then true
  else
    let check := pyLower s
    if pyIn "finish_reason=max_tokens" check || pyIn "max_tokens" check ||
        pyIn "partial" check then true
    else if pyIn "sdk_http_response" check || pyIn "candidates=" check then true
    else if (pyStrip s).length < 5 then true
    else false

/-- `_looks_truncated` on an optional reply (`None` counts as truncated). -/
def _looks_truncated : Option String → Bool
  | none => true
  | some s => _looks_truncated_str s

/-- The message of the `RuntimeError`s raised by `parse_user_needs` (the Python
messages also interpolate the offending reply; only the constant part is kept). -/
def parseFailMsg : String := "Failed to parse JSON from model output"

/-- The `json_text` selection of `parse_user_needs`
(semantic_parser_agent.py:307-312): the fenced JSON group if the fence regex
matches, otherwise the first brace-balanced object. -/
def jsonTextOf (fence : String → Option String) (s : String) : Option String :=
  match fence s with
  | some t => some t
  | none => _find_first_balanced_json s

/-- Embeds `parse_user_needs` (semantic_parser_agent.py:261-337).  `raw1` and
`raw2` are the replies of the first and the retry completion call (`none` models
an absent reply or a raised call); `fence` models `_JSON_FENCE_RE.search`
returning the fenced JSON group. -/
def parse_user_needs (jp : String → Option JVal) (fence : String → Option String)
    (raw1 raw2 : Option String) (user_text : String) : Except String PyDict :=
  let raw := if _looks_truncated raw1 then raw2 else raw1
  match raw with
  | none => _simple_heuristic_parse user_text
  | some s =>
    if s == "" then _simple_heuristic_parse user_text
    else
      match jsonTextOf fence s with
      | none =>
        match _attempt_json_load jp (some s) with
        | some (.jobj kvs) =>
          match (_normalize_shape (.jobj kvs)).bind (fun d => _enrich_from_text d user_text) with
          | .ok d => .ok d
          | .error _ =>
            if _looks_truncated_str s then _simple_heuristic_parse user_text
            else .error parseFailMsg
        | some _ =>
          if _looks_truncated_str s then _simple_heuristic_parse user_text
          else .error parseFailMsg
        | none =>
          if _looks_truncated_str s then _simple_heuristic_parse user_text
          else .error parseFailMsg
      | some jt =>
        match _attempt_json_load jp (some jt) with
        | none =>
          if _looks_truncated_str s then _simple_heuristic_parse user_text
          else .error parseFailMsg
        | some v => (_normalize_shape v).bind (fun d => _enrich_from_text d user_text)

/-! ### Data shapes shared by matcher_agent.py and reason_agent.py -/

/-- The persona dict as read by the matcher/reason agents (`label`,
`primary_needs`; other persona keys are never read by the embedded code). -/
structure Persona where
  label : String := ""
  primary_needs : List String := []
deriving DecidableEq

/-- A candidate `metadata` mapping with the typed attribute values the scoring
code reads (any field may be absent, matching `metadata.get(...)`). -/
structure Metadata where
  raw_name : Option String := none
  name : Option String := none
  title : Option String := none
  make : Option String := none
  model : Option String := none
  body_type : Option String := none
  price_band : Option String := none
  year : Option Int := none
  seats : Option Int := none
  km_driven : Option Int := none
  fuel : Option String := none
  fuel_type : Option String := none
  price : Option ℚ := none
  selling_price : Option ℚ := none
  drivetrain : Option String := none
  transmission : Option String := none
  tags : Option String := none
  image_url : Option String := none
deriving DecidableEq

/-- Python truthiness of an optional rational (`None` and `0` are falsy). -/
def truthyQ : Option ℚ → Bool
  | none => false
  | some q => !(q == 0)

/-- Python `a or b` on optional strings (falsy `a`, i.e. `None`/`""`, yields `b`). -/
def pyOrS (a b : Option String) : Option String :=
  if truthyS a then a else b

/-- Python `a or b` on optional numbers (falsy `a`, i.e. `None`/`0`, yields `b`). -/
def pyOrQ (a b : Option ℚ) : Option ℚ :=
  if truthyQ a then a else b

/-- The `specs` projection built by `score_candidates` (matcher_agent.py:237-250). -/
structure Specs where
  make : Option String
  model : Option String
  raw_name : Option String
  year : Option Int
  fuel_type : Option String
  seats : Option Int
  price : Option ℚ
  price_band : Option String
  km_driven : Option Int
  drivetrain : Option String
  transmission : Option String
  tags : Option String
deriving DecidableEq

/-- Builds the `specs` dict of a result row (matcher_agent.py:237-250). -/
def buildSpecs (meta : Metadata) : Specs :=
  { make := meta.make
    model := pyOrS meta.model meta.raw_name
    raw_name := meta.raw_name
    year := meta.year
    fuel_type := pyOrS meta.fuel_type meta.fuel
    seats := meta.seats
    price := pyOrQ meta.price meta.selling_price
    price_band := meta.price_band
    km_driven := meta.km_driven
    drivetrain := meta.drivetrain
    transmission := meta.transmission
    tags := meta.tags }

/-- A result row: the dict literal appended by `score_candidates`
(matcher_agent.py:253-264).  Its keys are exactly id, name, score, reasons,
image_url, price_band, body_type, specs. -/
structure MatchRow where
  id : Option String
  name : String
  score : ℤ
  reasons : List String
  image_url : Option String
  price_band : Option String
  body_type : Option String
  specs : Specs
deriving DecidableEq

/-- JSON encoding of an optional string value stored in a dict. -/
def jOptS : Option String → JVal
  | some s => .jstr s
  | none => .jnull

/-- JSON encoding of an optional integer value stored in a dict. -/
def jOptI : Option Int → JVal
  | some n => .jnum (n : ℚ)
  | none => .jnull

/-- JSON encoding of an optional rational value stored in a dict. -/
def jOptQ : Option ℚ → JVal
  | some q => .jnum q
  | none => .jnull

/-- The `specs` dict as a JSON object (field order of the literal). -/
def specsObj (s : Specs) : List (String × JVal) :=
  [("make", jOptS s.make), ("model", jOptS s.model), ("raw_name", jOptS s.raw_name),
   ("year", jOptI s.year), ("fuel_type", jOptS s.fuel_type), ("seats", jOptI s.seats),
   ("price", jOptQ s.price), ("price_band", jOptS s.price_band),
   ("km_driven", jOptI s.km_driven), ("drivetrain", jOptS s.drivetrain),
   ("transmission", jOptS s.transmission), ("tags", jOptS s.tags)]

/-- Python `r.get(key)` on a result row dict (matcher_agent.py:253-264).
The dict has exactly the keys id, name, score, reasons, image_url, price_band,
body_type, specs; any other key — in particular "metadata" — is absent, so
`get` yields `None`. -/
def MatchRow.get (r : MatchRow) (k : String) : Option JVal :=
  if k == "id" then some (jOptS r.id)
  else if k == "name" then some (.jstr r.name)
  else if k == "score" then some (.jnum (r.score : ℚ))
  else if k == "reasons" then some (.jarr (r.reasons.map .jstr))
  else if k == "image_url" then some (jOptS r.image_url)
  else if k == "price_band" then some (jOptS r.price_band)
  else if k == "body_type" then some (jOptS r.body_type)
  else if k == "specs" then some (.jobj (specsObj r.specs))
  else none

/-- Typed read-out of an optional string stored in a JSON object field. -/
def asStr? : Option JVal → Option String
  | some (.jstr s) => some s
  | _ => none

/-- Typed read-out of an optional integer stored in a JSON object field. -/
def asInt? : Option JVal → Option Int
  | some (.jnum q) => if q.den = 1 then some q.num else none
  | _ => none

/-- `x or {}` followed by the typed metadata read-out: a JSON object gives its
typed fields, any falsy/non-object value gives the empty mapping. -/
def metaOfJ : JVal → Metadata
  | .jobj kvs =>
    { raw_name := asStr? (dGet kvs "raw_name"), name := asStr? (dGet kvs "name")
      title := asStr? (dGet kvs "title"), make := asStr? (dGet kvs "make")
      model := asStr? (dGet kvs "model"), body_type := asStr? (dGet kvs "body_type")
      price_band := asStr? (dGet kvs "price_band"), year := asInt? (dGet kvs "year")
      seats := asInt? (dGet kvs "seats"), km_driven := asInt? (dGet kvs "km_driven")
      fuel := asStr? (dGet kvs "fuel"), fuel_type := asStr? (dGet kvs "fuel_type")
      drivetrain := asStr? (dGet kvs "drivetrain")
      transmission := asStr? (dGet kvs "transmission")
      tags := asStr? (dGet kvs "tags"), image_url := asStr? (dGet kvs "image_url") }
  | _ => {}

/-! ### reason_agent.py -/

/-- Embeds `_fallback_reason_from_rules` (reason_agent.py:7-58): the
deterministic one-sentence fallback justification. -/
def _fallback_reason_from_rules (user_text : String) (persona : Persona)
    (meta : Metadata) : String :=
  let needs := persona.primary_needs
  let body := pyLower (meta.body_type.getD "")
  let year := meta.year
  let fuel := pyLower (if truthyS meta.fuel_type then meta.fuel_type.getD ""
               else meta.fuel.getD "")
  let seats := meta.seats
  let bits : List String := []
  let bits := if needs.contains "comfort" then bits ++ ["is comfortable to drive"] else bits
  let bits := if needs.contains "fuel_economy" then
      (if pyIn "hybrid" fuel then bits ++ ["helps you save fuel with its hybrid setup"]
       else bits ++ ["is fuel‑efficient for everyday use"])
    else bits
  let bits := if needs.contains "space" || pyIn "family" (pyLower persona.label) then
      (if truthyI seats then bits ++ ["has enough space for your family"]
       else bits ++ ["offers practical space for family use"])
    else bits
  let bits := if needs.contains "safety" then
      bits ++ ["keeps your family’s safety in mind"] else bits
  let bits := if needs.contains "easy_to_park" then
      bits ++ ["is easy to handle and park in the city"] else bits
  let bits := if body == "suv" then bits ++ ["gives you an SUV’s higher driving position"]
      else if body == "sedan" then bits ++ ["has a balanced sedan design for daily commutes"]
      else bits
  let bits := if truthyI year && decide ((year.getD 0) ≥ 2022) then
      bits ++ ["comes from a recent model year with modern features"] else bits
  if bits.isEmpty then "This car is a well‑rounded choice that fits your described needs."
  else
    let sentence := String.intercalate ", " (bits.take 3)
    let sentence := if !endsTerminal sentence then sentence ++ "." else sentence
    capFirst sentence

/-- Embeds `re.search(r"(\[.*\])", raw, re.S)`: the substring from the first
`[` to the last `]`, when the latter comes strictly after the former. -/
def bracketSlice (s : String) : Option String :=
  let cs := s.toList
  match cs.findIdx? (fun c => c == '[') with
  | none => none
  | some i =>
    match cs.reverse.findIdx? (fun c => c == ']') with
    | none => none
    | some jr =>
      let j := cs.length - 1 - jr
      if i < j then some ⟨(cs.drop i).take (j - i + 1)⟩ else none

/-- The per-reason repair of `generate_reasons_for_top_k` (reason_agent.py:149-153):
truncate a stripped non-empty reason to 30 words and ensure terminal punctuation. -/
def processReason (reason0 : String) : String :=
  let words := pyWords reason0.toList
  let reason := if words.length > 30 then (⟨joinSp (words.take 30)⟩ : String) else reason0
  if !endsTerminal reason then reason ++ "." else reason

/-- Python dict assignment `m[k] = v` for the reasons mapping. -/
def dPut (m : List (String × String)) (k v : String) : List (String × String) :=
  match m with
  | [] => [(k, v)]
  | (k', v') :: rest => if k' == k then (k, v) :: rest else (k', v') :: dPut rest k v

/-- Python `m.get(k)` / `k in m` lookup for the reasons mapping. -/
def dLookup (m : List (String × String)) (k : String) : Option String :=
  (m.find? (fun kv => kv.1 == k)).map (·.2)

/-- The loop body of `generate_reasons_for_top_k` (reason_agent.py:139-154):
keep an object only when it is a dict with an `id` and a string `reason` whose
stripped text is non-empty; index the repaired reason by the stringified id. -/
def reasonStep (acc : List (String × String)) (obj : JVal) : List (String × String) :=
  match obj with
  | .jobj kvs =>
    match dGet kvs "id", dGet kvs "reason" with
    | some idv, some (.jstr rs) =>
      let reason := pyStrip rs
      if reason == "" then acc
      else dPut acc (pyStr idv) (processReason reason)
    | _, _ => acc
  | _ => acc

/-- Embeds `generate_reasons_for_top_k` (reason_agent.py:61-156).  `reply` is
the reply of the single batched completion call (`none` for a failed call);
`jp` models `json.loads`.  The prompt built from `user_text`, `persona` and
`top_matches` does not influence the returned mapping, so its construction is
not modelled. -/
def generate_reasons_for_top_k (jp : String → Option JVal) (user_text : String)
    (persona : Persona) (top_matches : List MatchRow) (reply : Option String) :
    List (String × String) :=
  match reply with
  | none => []
  | some raw =>
    if raw == "" then []
    else
      let data :=
        match jp raw with
        | some v => some v
        | none =>
          match bracketSlice raw with
          | none => none
          | some sub => jp sub
      match data with
      | some (.jarr objs) => objs.foldl reasonStep []
      | _ => []

/-! ### matcher_agent.py -/

/-- The parsed-intent dict as read by the matcher (`budget_band`,
`family_size`, `usage` are the only keys `_persona_match_score` and
`_heuristic_boost` access; the parser emits them as an optional string, an
optional integer and a list of strings). -/
structure Parsed where
  family_size : Option Int := none
  budget_band : Option String := none
  usage : List String := []
deriving DecidableEq

/-- Embeds `_normalize_similarity` (matcher_agent.py:38-54). -/
def _normalize_similarity (pinecone_score : ℚ) : ℚ :=
  let s := pinecone_score
  let s := if s < 0 then 0 else s
  let s := if s > 2 then 1 / (1 + s) else s
  let s := max 0 (min 1 s)
  s * 100

/-- Embeds `_persona_match_score` (matcher_agent.py:57-104).  The Python
`try: int(seats) >= int(fam) + 1 except: pass` always succeeds on the typed
fields; the usage block adds one score point per fired mapping but increments
the total only once. -/
def _persona_match_score (parsed : Parsed) (metadata : Metadata) : ℚ :=
  let bActive := truthyS parsed.budget_band && truthyS metadata.price_band
  let bHit := bActive &&
    (pyLower (parsed.budget_band.getD "") == pyLower (metadata.price_band.getD ""))
  let famActive := parsed.family_size.isSome && metadata.seats.isSome
  let famHit := famActive &&
    decide ((parsed.family_size.getD 0) + 1 ≤ metadata.seats.getD 0)
  let usage := parsed.usage.map pyLower
  let body := pyLower (metadata.body_type.getD "")
  let uActive := !usage.isEmpty && !(body == "")
  let offHit := uActive && usage.contains "offroad" && pyIn "suv" body
  let cityHit := uActive && usage.contains "city" &&
    (pyIn "hatch" body || pyIn "sedan" body || pyIn "compact" body)
  let famUHit := uActive && usage.contains "family" &&
    (pyIn "mpv" body || pyIn "suv" body || pyIn "minivan" body || pyIn "estate" body)
  let usage_hit := offHit || cityHit || famUHit
  let score : ℚ := (if bHit then 1 else 0) + (if famHit then 1 else 0) +
    (if offHit then 1 else 0) + (if cityHit then 1 else 0) + (if famUHit then 1 else 0)
  let total : ℚ := (if bActive then 1 else 0) + (if famActive then 1 else 0) +
    (if usage_hit then 1 else 0)
  if total = 0 then 50 else (score / total) * 100

/-- Embeds `_heuristic_boost` (matcher_agent.py:107-161). -/
def _heuristic_boost (parsed : Parsed) (metadata : Metadata) : ℚ :=
  let b1 : ℚ :=
    if truthyI metadata.year then
      let y := metadata.year.getD 0
      if y ≥ 2022 then 30 else if y ≥ 2017 then 20 else if y ≥ 2012 then 10 else 0
    else 0
  let b2 : ℚ :=
    if truthyI metadata.km_driven then
      let k := metadata.km_driven.getD 0
      if k < 30000 then 25 else if k < 60000 then 15 else if k < 100000 then 5 else 0
    else 0
  let fuel := pyLower (metadata.fuel.getD "")
  let b3 : ℚ :=
    if pyIn "electric" fuel || pyIn "ev" fuel then 30
    else if pyIn "hybrid" fuel then 25
    else if pyIn "diesel" fuel then 20
    else if pyIn "petrol" fuel then 10
    else 0
  let user_band := pyLower (parsed.budget_band.getD "")
  let car_band := pyLower (metadata.price_band.getD "")
  let b4 : ℚ := if !(user_band == "") && !(car_band == "") && user_band == car_band then 25 else 0
  min 100 (b1 + b2 + b3 + b4)

/-- Embeds `_safe_get_name` (matcher_agent.py:164-165). -/
def _safe_get_name (metadata : Metadata) (candidate_id : Option String) : String :=
  if truthyS metadata.raw_name then metadata.raw_name.getD ""
  else if truthyS metadata.name then metadata.name.getD ""
  else if truthyS metadata.title then metadata.title.getD ""
  else if truthyS candidate_id then candidate_id.getD ""
  else "Unknown"

/-- Python `int(round(x))`: round-half-to-even on the exact rational value. -/
def py_round (q : ℚ) : ℤ :=
  let f := ⌊q⌋
  let r := q - (f : ℚ)
  if r < 1 / 2 then f
  else if 1 / 2 < r then f + 1
  else if f % 2 = 0 then f else f + 1

/-- A candidate dict from the retriever: `{"id": ..., "score": ..., "metadata": ...}`
(`score` defaults to `0.0` via `c.get("score", 0.0)`). -/
structure Candidate where
  id : Option String := none
  score : ℚ := 0
  metadata : Metadata := {}
deriving DecidableEq

/-- The per-candidate body of the scoring loop of `score_candidates`
(matcher_agent.py:223-264): sub-scores, the weighted clamped final score, and
the result-row dict. -/
def buildRow (parsed : Parsed) (c : Candidate) : MatchRow :=
  let meta := c.metadata
  let semantic := _normalize_similarity c.score
  let persona_score := _persona_match_score parsed meta
  let heur := _heuristic_boost parsed meta
  let alpha : ℚ := 0.25
  let beta : ℚ := 0.15
  let final := semantic + alpha * persona_score + beta * heur
  let final := max 0 (min 100 final)
  { id := c.id
    name := _safe_get_name meta c.id
    score := py_round final
    reasons := []
    image_url := meta.image_url
    price_band := meta.price_band
    body_type := meta.body_type
    specs := buildSpecs meta }

/-- Stable insertion into a score-descending list (a tie goes after the equal
scores already present, i.e. earlier-input rows stay first). -/
def insertDesc (x : MatchRow) : List MatchRow → List MatchRow
  | [] => [x]
  | y :: ys => if y.score ≤ x.score then x :: y :: ys else y :: insertDesc x ys

/-- `results.sort(key=lambda x: x["score"], reverse=True)`: Python's sort is
stable; a stable sort by one key is unique, so insertion sort embeds it. -/
def sortDesc : List MatchRow → List MatchRow
  | [] => []
  | x :: xs => insertDesc x (sortDesc xs)

/-- Python list slicing `l[:k]` for an `int` bound `k` (a negative bound counts
from the end). -/
def pySlice {α : Type} (k : ℤ) (l : List α) : List α :=
  if k < 0 then l.take (((l.length : ℤ) + k).toNat) else l.take k.toNat

/-- The body of the reason-attachment loop of `score_candidates`
(matcher_agent.py:271-279): the row gets the batched reason for its stringified
id, or the deterministic fallback computed on `r.get("metadata") or {}`. -/
def attachOne (user_text : String) (persona : Persona)
    (rmap : List (String × String)) (r : MatchRow) : MatchRow :=
  let rid := pyStr ((r.get "id").getD .jnull)
  let meta := metaOfJ ((r.get "metadata").getD .jnull)
  match dLookup rmap rid with
  | some v => { r with reasons := [v] }
  | none => { r with reasons := [_fallback_reason_from_rules user_text persona meta] }

/-- The reason-attachment loop of `score_candidates` (matcher_agent.py:271-279). -/
def attachReasons (user_text : String) (persona : Persona)
    (rmap : List (String × String)) (top : List MatchRow) : List MatchRow :=
  top.map (attachOne user_text persona rmap)

/-- Embeds `score_candidates` (matcher_agent.py:199-281).  `reply` is the reply
of the single batched justification call made through
`generate_reasons_for_top_k`; `jp` models `json.loads`. -/
def score_candidates (jp : String → Option JVal) (parsed : Parsed) (persona : Persona)
    (candidates : List Candidate) (user_text : String) (top_k : ℤ)
    (reply : Option String) : List MatchRow :=
  let results := candidates.map (buildRow parsed)
  let results := sortDesc results
  let top_matches := pySlice top_k results
  let reasons_by_id := generate_reasons_for_top_k jp user_text persona top_matches reply
  attachReasons user_text persona reasons_by_id top_matches

/-! ### Specification-side definitions (used only in theorem statements) -/

/-- Stable insertion on index-tagged rows, comparing only the row scores
(mirrors `insertDesc` on the tagged list). -/
def insertDescE (x : ℕ × MatchRow) : List (ℕ × MatchRow) → List (ℕ × MatchRow)
  | [] => [x]
  | y :: ys => if y.2.score ≤ x.2.score then x :: y :: ys else y :: insertDescE x ys

/-- Stable sort on index-tagged rows (mirrors `sortDesc` on the tagged list). -/
def sortDescE : List (ℕ × MatchRow) → List (ℕ × MatchRow)
  | [] => []
  | x :: xs => insertDescE x (sortDescE xs)

/-- "Sorted by score descending with ties broken by input order": a pair is in
order when the left score is strictly larger, or the scores are equal and the
left input index is smaller. -/
def rankOrd (a b : ℕ × MatchRow) : Prop :=
  b.2.score < a.2.score ∨ (a.2.score = b.2.score ∧ a.1 < b.1)

/-- Modelled from the spec's description of the brace scanner: one step of the
state machine with an in-string flag, an escape flag and a depth counter; an
unescaped double quote toggles the in-string flag, braces count only outside
string literals. -/
def specStep (st : ScanSt) (ch : Char) : ScanSt :=
  if ch == '"' && !st.esc then ⟨st.depth, !st.inStr, false⟩
  else
    let esc' := ch == '\\' && !st.esc
    if st.inStr then ⟨st.depth, st.inStr, esc'⟩
    else if ch == '{' then ⟨st.depth + 1, st.inStr, esc'⟩
    else if ch == '}' then ⟨st.depth - 1, st.inStr, esc'⟩
    else ⟨st.depth, st.inStr, esc'⟩

/-- The machine states after each successive character, starting from `st`,
for a given step function. -/
def scanStates (step : ScanSt → Char → ScanSt) (st : ScanSt) : List Char → List ScanSt
  | [] => []
  | c :: cs =>
    let st' := step st c
    st' :: scanStates step st' cs

/-- Modelled from the spec's description of `_find_first_balanced_json`: take
the suffix starting at the first `{`; run the state machine over it from the
initial state; the matching `}` is the first position where the depth counter
returns to zero; return the prefix up to it, `none` when the depth never
returns to zero or there is no `{` at all. -/
def specBalanced (s : String) : Option String :=
  let cs := s.toList.dropWhile (fun c => !(c == '{'))
  if cs.isEmpty then none
  else
    ((scanStates specStep ⟨0, false, false⟩ cs).findIdx? (fun st => st.depth == 0)).map
      (fun j => (⟨cs.take (j + 1)⟩ : String))

/-- A dict value on which the Python iteration of `_enrich_from_text` succeeds
(absent key: the setdefault default `[]` is used, which is iterable). -/
def optIter : Option JVal → Bool
  | none => true
  | some (.jarr _) => true
  | some (.jstr _) => true
  | some (.jobj _) => true
  | some _ => false

/-- A dict value that is a JSON list (absent key: the default `[]` is a list). -/
def optArr : Option JVal → Bool
  | none => true
  | some (.jarr _) => true
  | some _ => false

/-- The fields of a parsed reply object are typed so that the keyword
enrichment cannot raise: `usage` and `preferences` iterable,
`body_type_preference` a list. -/
def enrichReady (d : PyDict) : Bool :=
  optIter (dGet d "usage") && optIter (dGet d "preferences") &&
    optArr (dGet d "body_type_preference")

/-- The JSON-extraction chain of `parse_user_needs` on a present reply `s`:
the fenced block or the first brace-balanced object if either exists, loaded
through `_attempt_json_load`; otherwise the whole reply loaded through
`_attempt_json_load`. -/
def extractParse (jp : String → Option JVal) (fence : String → Option String)
    (s : String) : Option JVal :=
  match jsonTextOf fence s with
  | some jt => _attempt_json_load jp (some jt)
  | none => _attempt_json_load jp (some s)

/-- Python `len(s.split())`: the number of whitespace-separated words. -/
def wordCount (s : String) : ℕ :=
  (pyWords s.toList).length

/-- The six required intent fields. -/
def requiredKeys : List String :=
  ["family_size", "budget_band", "usage", "preferences", "body_type_preference", "other"]

/-! ### General lemmas -/

theorem py_round_nonneg {q : ℚ} (h : 0 ≤ q) : 0 ≤ py_round q := by
  have hf : (0 : ℤ) ≤ ⌊q⌋ := Int.le_floor.mpr (by exact_mod_cast h)
  simp only [py_round]
  split_ifs <;> omega

theorem py_round_le {q : ℚ} {B : ℤ} (h : q ≤ (B : ℚ)) : py_round q ≤ B := by
  have hf : ⌊q⌋ ≤ B := by exact_mod_cast (Int.floor_le q).trans h
  have hkey : ¬ (q - (⌊q⌋ : ℚ) < 1 / 2) → ⌊q⌋ < B := by
    intro h1
    push_neg at h1
    have hq : (⌊q⌋ : ℚ) < q := by linarith
    by_contra hc
    have hBle : (B : ℚ) ≤ (⌊q⌋ : ℚ) := by exact_mod_cast not_lt.mp hc
    linarith
  simp only [py_round]
  split_ifs with h1 h2 h3
  · exact hf
  · have := hkey h1
    omega
  · exact hf
  · have := hkey h1
    omega

/-! ### Claim C4 -/

/-- C4: for every raw similarity value `s`, `_normalize_similarity` returns
`0` if `s` is negative, `100 * (1/(1+s))` if `s` exceeds `2`, and
`100 * min s 1` otherwise, and the result always lies in `[0, 100]`. -/
theorem C4_normalize_similarity_spec (s : ℚ) :
    _normalize_similarity s =
      (if s < 0 then 0 else if 2 < s then 100 * (1 / (1 + s)) else 100 * min s 1) ∧
    0 ≤ _normalize_similarity s ∧ _normalize_similarity s ≤ 100 := by
  have heq : _normalize_similarity s =
      (if s < 0 then 0 else if 2 < s then 100 * (1 / (1 + s)) else 100 * min s 1) := by
    rcases lt_or_ge s 0 with hneg | hge0
    · simp only [_normalize_similarity, if_pos hneg]
      norm_num
    · have h1 : ¬ s < 0 := not_lt.mpr hge0
      rcases le_or_lt s 2 with hle2 | hgt2
      · have h2 : ¬ 2 < s := not_lt.mpr hle2
        simp only [_normalize_similarity, if_neg h1, if_neg h2, gt_iff_lt]
        have hge : (0 : ℚ) ≤ min 1 s := le_min (by norm_num) hge0
        rw [max_eq_right hge, min_comm]
        ring
      · simp only [_normalize_similarity, if_neg h1, if_pos hgt2, gt_iff_lt]
        have hpos : (0 : ℚ) < 1 + s := by linarith
        have hlt : 1 / (1 + s) ≤ 1 := by
          rw [div_le_one hpos]
          linarith
        have hge : (0 : ℚ) ≤ 1 / (1 + s) := by positivity
        rw [min_eq_right hlt, max_eq_right hge]
        ring
  refine ⟨heq, ?_, ?_⟩ <;> rw [heq] <;> split_ifs with h1 h2
  · norm_num
  · have hpos : (0 : ℚ) < 1 + s := by linarith
    positivity
  · have h0 : (0 : ℚ) ≤ s := not_lt.mp h1
    have : (0 : ℚ) ≤ min s 1 := le_min h0 (by norm_num)
    linarith
  · norm_num
  · have hpos : (0 : ℚ) < 1 + s := by linarith
    have hle : 1 / (1 + s) ≤ 1 := by
      rw [div_le_one hpos]
      linarith
    linarith
  · have : min s 1 ≤ 1 := min_le_right s 1
    linarith

/-! ### Claim C3 -/

/-- C3 (code bug): on `usage = ["offroad", "family"]` with candidate body type
`"suv"`, both the offroad and the family usage mappings fire, each adding a
score point, while the usage check contributes only one applicable check; the
function returns `200`, outside the documented `[0, 100]` range and above the
`satisfied / applicable × 100` value of the claim (which would be `100`). -/
theorem C3_persona_match_score_escapes_range :
    _persona_match_score { usage := ["offroad", "family"] } { body_type := some "suv" } = 200 := by
  simp +decide [_persona_match_score]
  norm_num

/-! ### Sorting lemmas -/

theorem insertDesc_mem {x y : MatchRow} {l : List MatchRow} :
    y ∈ insertDesc x l ↔ y = x ∨ y ∈ l := by
  induction l with
  | nil => simp [insertDesc]
  | cons z zs ih =>
    simp only [insertDesc]
    split_ifs with h
    · simp only [List.mem_cons]
    · simp only [List.mem_cons, ih]
      tauto

theorem sortDesc_mem {y : MatchRow} {l : List MatchRow} :
    y ∈ sortDesc l ↔ y ∈ l := by
  induction l with
  | nil => simp [sortDesc]
  | cons z zs ih =>
    simp only [sortDesc, insertDesc_mem, ih, List.mem_cons]

theorem insertDesc_pairwise {x : MatchRow} {l : List MatchRow}
    (hl : l.Pairwise (fun a b => b.score ≤ a.score)) :
    (insertDesc x l).Pairwise (fun a b => b.score ≤ a.score) := by
  induction l with
  | nil => simp [insertDesc]
  | cons y ys ih =>
    simp only [insertDesc]
    split_ifs with h
    · refine List.Pairwise.cons ?_ hl
      intro z hz
      rcases List.mem_cons.mp hz with rfl | hz'
      · exact h
      · exact ((List.pairwise_cons.mp hl).1 z hz').trans h
    · refine List.Pairwise.cons ?_ (ih (List.pairwise_cons.mp hl).2)
      intro z hz
      rcases insertDesc_mem.mp hz with rfl | hz'
      · exact (not_le.mp h).le
      · exact (List.pairwise_cons.mp hl).1 z hz'

theorem sortDesc_pairwise (l : List MatchRow) :
    (sortDesc l).Pairwise (fun a b => b.score ≤ a.score) := by
  induction l with
  | nil => simp [sortDesc]
  | cons y ys ih => exact insertDesc_pairwise ih

theorem insertDescE_mem {x y : ℕ × MatchRow} {l : List (ℕ × MatchRow)} :
    y ∈ insertDescE x l ↔ y = x ∨ y ∈ l := by
  induction l with
  | nil => simp [insertDescE]
  | cons z zs ih =>
    simp only [insertDescE]
    split_ifs with h
    · simp only [List.mem_cons]
    · simp only [List.mem_cons, ih]
      tauto

theorem sortDescE_mem {y : ℕ × MatchRow} {l : List (ℕ × MatchRow)} :
    y ∈ sortDescE l ↔ y ∈ l := by
  induction l with
  | nil => simp [sortDescE]
  | cons z zs ih =>
    simp only [sortDescE, insertDescE_mem, ih, List.mem_cons]

theorem insertDescE_map_snd (x : ℕ × MatchRow) (l : List (ℕ × MatchRow)) :
    (insertDescE x l).map Prod.snd = insertDesc x.2 (l.map Prod.snd) := by
  induction l with
  | nil => simp [insertDescE, insertDesc]
  | cons y ys ih =>
    simp only [insertDescE, insertDesc, List.map_cons]
    split_ifs with h
    · simp
    · simp [ih]

theorem sortDescE_map_snd (l : List (ℕ × MatchRow)) :
    (sortDescE l).map Prod.snd = sortDesc (l.map Prod.snd) := by
  induction l with
  | nil => simp [sortDescE, sortDesc]
  | cons y ys ih =>
    simp only [sortDescE, sortDesc, List.map_cons, insertDescE_map_snd, ih]

theorem insertDescE_stable {x : ℕ × MatchRow} {l : List (ℕ × MatchRow)}
    (hidx : ∀ y ∈ l, x.1 < y.1) (hl : l.Pairwise rankOrd) :
    (insertDescE x l).Pairwise rankOrd := by
  induction l with
  | nil => simp [insertDescE, rankOrd]
  | cons y ys ih =>
    simp only [insertDescE]
    split_ifs with h
    · refine List.Pairwise.cons ?_ hl
      intro z hz
      rcases List.mem_cons.mp hz with rfl | hz'
      · have hxy := hidx z (List.mem_cons_self z ys)
        rcases lt_or_eq_of_le h with hlt | heq
        · exact Or.inl hlt
        · exact Or.inr ⟨heq.symm, hxy⟩
      · have hyz := (List.pairwise_cons.mp hl).1 z hz'
        have hxz := hidx z (List.mem_cons_of_mem y hz')
        rcases hyz with h1 | ⟨h1, _⟩
        · exact Or.inl (lt_of_lt_of_le h1 h)
        · rcases lt_or_eq_of_le h with hlt | heq
          · exact Or.inl (h1 ▸ hlt)
          · exact Or.inr ⟨by rw [← heq, h1], hxz⟩
    · have hys := (List.pairwise_cons.mp hl).2
      have hidx' : ∀ z ∈ ys, x.1 < z.1 := fun z hz => hidx z (List.mem_cons_of_mem y hz)
      refine List.Pairwise.cons ?_ (ih hidx' hys)
      intro z hz
      rcases insertDescE_mem.mp hz with rfl | hz'
      · exact Or.inl (not_le.mp h)
      · exact (List.pairwise_cons.mp hl).1 z hz'

theorem sortDescE_stable {l : List (ℕ × MatchRow)}
    (hidx : l.Pairwise (fun a b => a.1 < b.1)) :
    (sortDescE l).Pairwise rankOrd := by
  induction l with
  | nil => simp [sortDescE]
  | cons y ys ih =>
    have hys := (List.pairwise_cons.mp hidx).2
    refine insertDescE_stable ?_ (ih hys)
    intro z hz
    exact (List.pairwise_cons.mp hidx).1 z (sortDescE_mem.mp hz)

/-! ### Slice, enumeration and attachment lemmas -/

theorem pySlice_length_le {α : Type} {k : ℤ} (hk : 0 ≤ k) (l : List α) :
    ((pySlice k l).length : ℤ) ≤ k := by
  simp only [pySlice, if_neg (not_lt.mpr hk)]
  have h1 : (l.take k.toNat).length ≤ k.toNat := by
    simp [List.length_take]
  calc ((l.take k.toNat).length : ℤ) ≤ (k.toNat : ℤ) := by exact_mod_cast h1
    _ = k := Int.toNat_of_nonneg hk

theorem pySlice_sublist {α : Type} (k : ℤ) (l : List α) : (pySlice k l).Sublist l := by
  simp only [pySlice]
  split_ifs <;> exact List.take_sublist _ _

theorem pySlice_map {α β : Type} (f : α → β) (k : ℤ) (l : List α) :
    pySlice k (l.map f) = (pySlice k l).map f := by
  simp only [pySlice, List.length_map]
  split_ifs <;> rw [List.map_take]

theorem le_fst_of_mem_enumFrom {α : Type} {n : ℕ} {l : List α} {p : ℕ × α}
    (h : p ∈ List.enumFrom n l) : n ≤ p.1 := by
  induction l generalizing n with
  | nil => simp at h
  | cons x xs ih =>
    rw [List.enumFrom_cons] at h
    rcases List.mem_cons.mp h with rfl | h'
    · simp
    · exact (Nat.le_succ n).trans (ih h')

theorem enumFrom_pairwise_fst {α : Type} (n : ℕ) (l : List α) :
    (List.enumFrom n l).Pairwise (fun a b => a.1 < b.1) := by
  induction l generalizing n with
  | nil => simp
  | cons x xs ih =>
    rw [List.enumFrom_cons]
    refine List.Pairwise.cons ?_ (ih (n + 1))
    intro z hz
    have hz1 := le_fst_of_mem_enumFrom hz
    omega

theorem enum_pairwise_fst {α : Type} (l : List α) :
    (l.enum).Pairwise (fun a b => a.1 < b.1) :=
  enumFrom_pairwise_fst 0 l

theorem attachOne_score (ut : String) (p : Persona) (m : List (String × String))
    (r : MatchRow) : (attachOne ut p m r).score = r.score := by
  simp only [attachOne]
  cases dLookup m (pyStr ((r.get "id").getD .jnull)) <;> rfl

theorem attachOne_idget (ut : String) (p : Persona) (m : List (String × String))
    (r : MatchRow) : (attachOne ut p m r).get "id" = r.get "id" := by
  simp only [attachOne]
  cases dLookup m (pyStr ((r.get "id").getD .jnull)) <;> rfl

theorem buildRow_score_bounds (parsed : Parsed) (c : Candidate) :
    0 ≤ (buildRow parsed c).score ∧ (buildRow parsed c).score ≤ 100 := by
  have hsc : (buildRow parsed c).score =
      py_round (max 0 (min 100 (_normalize_similarity c.score +
        0.25 * _persona_match_score parsed c.metadata +
        0.15 * _heuristic_boost parsed c.metadata))) := by
    simp only [buildRow]
  rw [hsc]
  refine ⟨py_round_nonneg (le_max_left _ _), py_round_le ?_⟩
  have h1 : min (100 : ℚ) (_normalize_similarity c.score +
      0.25 * _persona_match_score parsed c.metadata +
      0.15 * _heuristic_boost parsed c.metadata) ≤ 100 := min_le_left _ _
  push_cast
  exact max_le (by norm_num) h1

/-! ### Claim C1 -/

/-- C1 (counterexample): with a negative `top_k` (the parameter is a Python
`int`), the slice `results[:top_k]` keeps all but the last `|top_k|` rows, so
with two candidates and `top_k = -1` the returned list has length `1`, which is
not at most `top_k`. -/
theorem C1_counterexample_negative_top_k :
    ¬ (((score_candidates (fun _ => none) {} {}
        [{ id := some "a" }, { id := some "b" }] "t" (-1) none).length : ℤ) ≤ -1) := by
  simp +decide [score_candidates, buildRow, sortDesc, insertDesc, pySlice, attachReasons,
    attachOne, generate_reasons_for_top_k, _normalize_similarity, _persona_match_score,
    _heuristic_boost, _safe_get_name, buildSpecs, py_round]

/-- C1 (amended): for every parsed intent, persona, candidate list, user text
and NONNEGATIVE `top_k`, the list returned by `score_candidates` has length at
most `top_k`, is sorted non-increasing by score, every element's score is an
integer in `[0, 100]`, and the output is the index-tagged stable sort of the
scored rows sliced to `top_k` (ties broken by input order). -/
theorem C1_amended_score_candidates_spec (jp : String → Option JVal) (parsed : Parsed)
    (persona : Persona) (candidates : List Candidate) (user_text : String)
    (reply : Option String) (top_k : ℤ) (hk : 0 ≤ top_k) :
    ((score_candidates jp parsed persona candidates user_text top_k reply).length : ℤ) ≤ top_k ∧
    (score_candidates jp parsed persona candidates user_text top_k reply).Pairwise
      (fun a b => b.score ≤ a.score) ∧
    (∀ r ∈ score_candidates jp parsed persona candidates user_text top_k reply,
      0 ≤ r.score ∧ r.score ≤ 100) ∧
    score_candidates jp parsed persona candidates user_text top_k reply =
      attachReasons user_text persona
        (generate_reasons_for_top_k jp user_text persona
          (pySlice top_k (sortDesc (candidates.map (buildRow parsed)))) reply)
        ((pySlice top_k (sortDescE ((candidates.map (buildRow parsed)).enum))).map Prod.snd) ∧
    (pySlice top_k (sortDescE ((candidates.map (buildRow parsed)).enum))).Pairwise rankOrd := by
  have hE : (pySlice top_k (sortDescE ((candidates.map (buildRow parsed)).enum))).map Prod.snd =
      pySlice top_k (sortDesc (candidates.map (buildRow parsed))) := by
    rw [← pySlice_map, sortDescE_map_snd, List.enum_map_snd]
  have hdef : score_candidates jp parsed persona candidates user_text top_k reply =
      attachReasons user_text persona
        (generate_reasons_for_top_k jp user_text persona
          (pySlice top_k (sortDesc (candidates.map (buildRow parsed)))) reply)
        (pySlice top_k (sortDesc (candidates.map (buildRow parsed)))) := by
    simp only [score_candidates]
  have htopPW : (pySlice top_k (sortDesc (candidates.map (buildRow parsed)))).Pairwise
      (fun a b => b.score ≤ a.score) :=
    (sortDesc_pairwise _).sublist (pySlice_sublist _ _)
  refine ⟨?_, ?_, ?_, ?_, ?_⟩
  · rw [hdef]
    simp only [attachReasons, List.length_map]
    exact pySlice_length_le hk _
  · rw [hdef]
    simp only [attachReasons]
    refine List.pairwise_map.mpr (htopPW.imp ?_)
    intro a b hab
    rw [attachOne_score, attachOne_score]
    exact hab
  · rw [hdef]
    intro r hr
    simp only [attachReasons] at hr
    obtain ⟨r0, hr0, rfl⟩ := List.mem_map.mp hr
    rw [attachOne_score]
    have hmem : r0 ∈ sortDesc (candidates.map (buildRow parsed)) :=
      (pySlice_sublist _ _).subset hr0
    have hrow : r0 ∈ candidates.map (buildRow parsed) := sortDesc_mem.mp hmem
    obtain ⟨c, _, rfl⟩ := List.mem_map.mp hrow
    exact buildRow_score_bounds parsed c
  · rw [hdef, hE]
  · exact (sortDescE_stable (enum_pairwise_fst _)).sublist (pySlice_sublist _ _)

/-- C1 (witness): the amended theorem applied at a concrete run with two
candidates and `top_k = 1`. -/
theorem C1_amended_witness :
    (0 : ℤ) ≤ 1 ∧
    (((score_candidates (fun _ => none) {} {}
        [{ id := some "a" }, { id := some "b" }] "t" 1 none).length : ℤ) ≤ 1 ∧
      (score_candidates (fun _ => none) {} {}
        [{ id := some "a" }, { id := some "b" }] "t" 1 none).Pairwise
        (fun a b => b.score ≤ a.score) ∧
      (∀ r ∈ score_candidates (fun _ => none) {} {}
        [{ id := some "a" }, { id := some "b" }] "t" 1 none,
        0 ≤ r.score ∧ r.score ≤ 100) ∧
      score_candidates (fun _ => none) {} {}
        [{ id := some "a" }, { id := some "b" }] "t" 1 none =
        attachReasons "t" {}
          (generate_reasons_for_top_k (fun _ => none) "t" {}
            (pySlice 1 (sortDesc ([{ id := some "a" }, { id := some "b" }].map (buildRow {})))) none)
          ((pySlice 1 (sortDescE (([{ id := some "a" }, { id := some "b" }].map
            (buildRow {})).enum))).map Prod.snd) ∧
      (pySlice 1 (sortDescE (([{ id := some "a" }, { id := some "b" }].map
        (buildRow {})).enum))).Pairwise rankOrd) :=
  ⟨by decide,
    C1_amended_score_candidates_spec (fun _ => none) {} {}
      [{ id := some "a" }, { id := some "b" }] "t" none 1 (by decide)⟩

/-! ### Fallback sentence lemmas -/

theorem string_ne_of_data_ne {s : String} (h : s.toList ≠ []) : s ≠ "" := by
  intro he
  rw [he] at h
  exact h rfl

theorem append_dot_ne_empty (s : String) : s ++ "." ≠ "" := by
  apply string_ne_of_data_ne
  show (s ++ ".").data ≠ []
  rw [String.data_append]
  simp

theorem endsTerminal_ne_empty {s : String} (h : endsTerminal s = true) : s ≠ "" := by
  intro he
  subst he
  exact absurd h (by decide)

theorem capFirst_ne_empty {s : String} (h : s ≠ "") : capFirst s ≠ "" := by
  have hd : s.toList ≠ [] := by
    intro he
    apply h
    cases s with
    | mk data =>
      cases data with
      | nil => rfl
      | cons c r => simp [String.toList] at he
  rw [capFirst]
  cases hc : s.toList with
  | nil => exact absurd hc hd
  | cons c r =>
    apply string_ne_of_data_ne
    simp

theorem assembled_sentence_ne (bits : List String) :
    (if bits.isEmpty then "This car is a well‑rounded choice that fits your described needs."
     else capFirst (if !endsTerminal (String.intercalate ", " (bits.take 3))
        then String.intercalate ", " (bits.take 3) ++ "."
        else String.intercalate ", " (bits.take 3))) ≠ "" := by
  split_ifs with h1 h2
  · decide
  · exact capFirst_ne_empty (append_dot_ne_empty _)
  · have ht : endsTerminal (String.intercalate ", " (bits.take 3)) = true := by
      revert h2
      cases endsTerminal (String.intercalate ", " (bits.take 3)) <;> simp
    exact capFirst_ne_empty (endsTerminal_ne_empty ht)

theorem fallback_reason_ne (ut : String) (p : Persona) (m : Metadata) :
    _fallback_reason_from_rules ut p m ≠ "" := by
  simp only [_fallback_reason_from_rules]
  exact assembled_sentence_ne _

/-! ### Claim C6 -/

/-- C6: whenever the batched justification mapping has no entry for a surviving
match's stringified id — in particular when it is empty — that match's
`reasons` is a singleton list holding one non-empty sentence (the deterministic
fallback), so `reasons` is never empty once the pipeline completes. -/
theorem C6_missing_reason_fallback (jp : String → Option JVal) (parsed : Parsed)
    (persona : Persona) (candidates : List Candidate) (user_text : String)
    (top_k : ℤ) (reply : Option String) (r : MatchRow)
    (hr : r ∈ score_candidates jp parsed persona candidates user_text top_k reply)
    (hmiss : dLookup
      (generate_reasons_for_top_k jp user_text persona
        (pySlice top_k (sortDesc (candidates.map (buildRow parsed)))) reply)
      (pyStr ((r.get "id").getD .jnull)) = none) :
    ∃ s, r.reasons = [s] ∧ s ≠ "" := by
  simp only [score_candidates, attachReasons] at hr
  obtain ⟨r0, _, rfl⟩ := List.mem_map.mp hr
  rw [attachOne_idget] at hmiss
  have heq : (attachOne user_text persona
      (generate_reasons_for_top_k jp user_text persona
        (pySlice top_k (sortDesc (candidates.map (buildRow parsed)))) reply) r0).reasons =
      [_fallback_reason_from_rules user_text persona
        (metaOfJ ((r0.get "metadata").getD .jnull))] := by
    simp only [attachOne, hmiss]
  exact ⟨_, heq, fallback_reason_ne user_text persona _⟩

/-- C6 (witness): a run with one candidate and an absent justification reply;
the mapping is empty, and the surviving row carries one non-empty fallback
sentence. -/
theorem C6_missing_reason_fallback_witness :
    ∃ s, (attachOne "w" {}
      (generate_reasons_for_top_k (fun _ => none) "w" {}
        (pySlice 3 (sortDesc ([{ id := some "a" }].map (buildRow {})))) none)
      (buildRow {} { id := some "a" })).reasons = [s] ∧ s ≠ "" := by
  refine C6_missing_reason_fallback (fun _ => none) {} {} [{ id := some "a" }] "w" 3 none _
    ?_ ?_
  · show _ ∈ List.map _ _
    refine List.mem_map.mpr ⟨buildRow {} { id := some "a" }, ?_, rfl⟩
    exact List.mem_singleton.mpr rfl
  · rfl

/-! ### Claim C10 -/

/-- C10: a surviving match whose reason comes from the deterministic fallback
gets exactly the sentence `_fallback_reason_from_rules` computed on the EMPTY
metadata mapping: the result dict built by `score_candidates` has no
`"metadata"` key, so `r.get("metadata") or {}` is always `{}` and the
candidate's body type, year, fuel and seats never influence the sentence. -/
theorem C10_fallback_ignores_candidate_metadata (jp : String → Option JVal)
    (parsed : Parsed) (persona : Persona) (candidates : List Candidate)
    (user_text : String) (top_k : ℤ) (reply : Option String) (r : MatchRow)
    (hr : r ∈ score_candidates jp parsed persona candidates user_text top_k reply)
    (hmiss : dLookup
      (generate_reasons_for_top_k jp user_text persona
        (pySlice top_k (sortDesc (candidates.map (buildRow parsed)))) reply)
      (pyStr ((r.get "id").getD .jnull)) = none) :
    r.reasons = [_fallback_reason_from_rules user_text persona {}] := by
  simp only [score_candidates, attachReasons] at hr
  obtain ⟨r0, _, rfl⟩ := List.mem_map.mp hr
  rw [attachOne_idget] at hmiss
  simp only [attachOne, hmiss]
  rfl

/-- C10 (witness): in a concrete run whose candidate has a rich metadata
record, the fallback sentence is still the one computed on empty metadata. -/
theorem C10_fallback_ignores_candidate_metadata_witness :
    (attachOne "x" {}
      (generate_reasons_for_top_k (fun _ => none) "x" {}
        (pySlice 2 (sortDesc ([({ id := some "c", metadata := { body_type := some "suv", year := some 2023, fuel := some "electric", seats := some 5 } } : Candidate)].map (buildRow {})))) none)
      (buildRow {} ({ id := some "c", metadata := { body_type := some "suv", year := some 2023, fuel := some "electric", seats := some 5 } } : Candidate))).reasons =
      [_fallback_reason_from_rules "x" {} {}] := by
  refine C10_fallback_ignores_candidate_metadata (fun _ => none) {} {}
    [({ id := some "c", metadata := { body_type := some "suv", year := some 2023, fuel := some "electric", seats := some 5 } } : Candidate)]
    "x" 2 none _ ?_ ?_
  · show _ ∈ List.map _ _
    refine List.mem_map.mpr ⟨_, ?_, rfl⟩
    exact List.mem_singleton.mpr rfl
  · rfl

/-! ### Claim C9 -/

theorem specStep_eq_scanStep (st : ScanSt) (ch : Char) : specStep st ch = scanStep st ch := by
  obtain ⟨d, instr, esc⟩ := st
  cases esc with
  | true =>
    simp only [specStep, scanStep, Bool.not_true, Bool.and_false]
    split_ifs <;> first | rfl | simp_all
  | false =>
    by_cases hch : ch = '"'
    · subst hch
      cases instr <;> rfl
    · have hqf : (ch == '"') = false := by
        simp [hch]
      simp only [specStep, scanStep, hqf, Bool.not_false, Bool.and_true, Bool.false_and]
      split_ifs <;> first | rfl | simp_all

theorem findIdx?_start_le {α : Type} {p : α → Bool} {l : List α} :
    ∀ {i j : ℕ}, List.findIdx? p l i = some j → i ≤ j := by
  induction l with
  | nil => intro i j h; simp [List.findIdx?] at h
  | cons x xs ih =>
    intro i j h
    rw [List.findIdx?_cons] at h
    split_ifs at h with hx
    · exact Nat.le_of_eq (Option.some.inj h)
    · exact (Nat.le_succ i).trans (ih h)

theorem scanLoop_eq_findIdx (cs : List Char) : ∀ (st : ScanSt) (pre : List Char) (i : ℕ),
    scanLoop st pre cs =
      ((scanStates scanStep st cs).findIdx? (fun s => s.depth == 0) i).map
        (fun j => pre ++ cs.take (j - i + 1)) := by
  induction cs with
  | nil => intro st pre i; rfl
  | cons c cs' ih =>
    intro st pre i
    simp only [scanLoop, scanStates]
    rw [List.findIdx?_cons]
    by_cases h : ((scanStep st c).depth == 0) = true
    · simp [h]
    · have hf : ((scanStep st c).depth == 0) = false := by
        cases hh : ((scanStep st c).depth == 0) with
        | true => exact absurd hh h
        | false => rfl
      simp only [hf, Bool.false_eq_true, if_false]
      rw [ih (scanStep st c) (pre ++ [c]) (i + 1)]
      cases hfind : (scanStates scanStep (scanStep st c) cs').findIdx?
          (fun s => s.depth == 0) (i + 1) with
      | none => rfl
      | some j =>
        have hij : i + 1 ≤ j := findIdx?_start_le hfind
        simp only [Option.map_some']
        congr 1
        have hstep : j - i + 1 = (j - (i + 1) + 1) + 1 := by omega
        rw [hstep, List.take_succ_cons, List.append_assoc]
        rfl

/-- C9: `_find_first_balanced_json` coincides with the specification state
machine: scan from the first `{` with an in-string flag, an escape flag and a
depth counter (an unescaped double quote toggles the in-string flag, braces
count only outside string literals, honoring backslash escapes); the result is
the substring from the first `{` up to the first position where the depth
returns to zero — its matching `}` — and `None` when there is no `{` or the
depth never returns to zero. -/
theorem C9_find_first_balanced_json_spec (s : String) :
    _find_first_balanced_json s = specBalanced s := by
  have hstep : specStep = scanStep :=
    funext fun st => funext fun ch => specStep_eq_scanStep st ch
  simp only [_find_first_balanced_json, specBalanced, hstep]
  cases hcs : s.toList.dropWhile (fun c => !(c == '{')) with
  | nil => rfl
  | cons c cs' =>
    simp only [List.isEmpty_cons, Bool.false_eq_true, if_false]
    rw [scanLoop_eq_findIdx (c :: cs') ⟨0, false, false⟩ [] 0]
    cases (scanStates scanStep ⟨0, false, false⟩ (c :: cs')).findIdx? (fun s => s.depth == 0) with
    | none => rfl
    | some j => simp

/-! ### Word counting lemmas -/

theorem takeWhile_append_of_all {α : Type} {q : α → Bool} {l r : List α}
    (h : ∀ x ∈ l, q x = true) : (l ++ r).takeWhile q = l ++ r.takeWhile q := by
  induction l with
  | nil => simp
  | cons a as ih =>
    have ha : q a = true := h a (List.mem_cons_self a as)
    simp only [List.cons_append, List.takeWhile_cons, ha, if_true]
    rw [ih (fun x hx => h x (List.mem_cons_of_mem a hx))]

theorem dropWhile_append_of_all {α : Type} {q : α → Bool} {l r : List α}
    (h : ∀ x ∈ l, q x = true) : (l ++ r).dropWhile q = r.dropWhile q := by
  induction l with
  | nil => simp
  | cons a as ih =>
    have ha : q a = true := h a (List.mem_cons_self a as)
    simp only [List.cons_append, List.dropWhile_cons, ha, if_true]
    exact ih (fun x hx => h x (List.mem_cons_of_mem a hx))

theorem dropWhile_append_of_exists {α : Type} {q : α → Bool} {l r : List α}
    (h : ¬ ∀ x ∈ l, q x = true) : (l ++ r).dropWhile q = l.dropWhile q ++ r := by
  induction l with
  | nil => exact absurd (by simp) h
  | cons a as ih =>
    by_cases ha : q a = true
    · have has : ¬ ∀ x ∈ as, q x = true := by
        intro hall
        exact h (fun x hx => by
          rcases List.mem_cons.mp hx with rfl | hx'
          · exact ha
          · exact hall x hx')
      simp only [List.cons_append, List.dropWhile_cons, ha, if_true]
      exact ih has
    · have ha' : q a = false := by
        cases hqa : q a with
        | true => exact absurd hqa ha
        | false => rfl
      simp [List.dropWhile_cons, ha']

theorem dropWhile_ne_nil_of_exists {α : Type} {q : α → Bool} {l : List α}
    (h : ¬ ∀ x ∈ l, q x = true) : l.dropWhile q ≠ [] := by
  induction l with
  | nil => exact absurd (by simp) h
  | cons a as ih =>
    by_cases ha : q a = true
    · have has : ¬ ∀ x ∈ as, q x = true := by
        intro hall
        exact h (fun x hx => by
          rcases List.mem_cons.mp hx with rfl | hx'
          · exact ha
          · exact hall x hx')
      simp only [List.dropWhile_cons, ha, if_true]
      exact ih has
    · have ha' : q a = false := by
        cases hqa : q a with
        | true => exact absurd hqa ha
        | false => rfl
      simp [List.dropWhile_cons, ha']

theorem getLast?_dropWhile {α : Type} {q : α → Bool} {l : List α}
    (h : l.dropWhile q ≠ []) : (l.dropWhile q).getLast? = l.getLast? := by
  conv_rhs => rw [← List.takeWhile_append_dropWhile (p := q) (l := l)]
  rw [List.getLast?_append_of_ne_nil _ h]

theorem head?_dropWhile {α : Type} {q : α → Bool} {l : List α} {c : α}
    (h : (l.dropWhile q).head? = some c) : q c = false := by
  induction l with
  | nil => simp at h
  | cons a as ih =>
    by_cases ha : q a = true
    · rw [List.dropWhile_cons, if_pos ha] at h
      exact ih h
    · have ha' : q a = false := by
        cases hqa : q a with
        | true => exact absurd hqa ha
        | false => rfl
      rw [List.dropWhile_cons, if_neg (by simp [ha'])] at h
      cases h
      exact ha'

theorem pyWords_all (cs : List Char) :
    ∀ w ∈ pyWords cs, w ≠ [] ∧ ∀ ch ∈ w, pySpace ch = false := by
  induction cs using pyWords.induct with
  | case1 => simp [pyWords]
  | case2 c cs hc ih =>
    rw [pyWords, if_pos hc]
    exact ih
  | case3 c cs hc ih =>
    rw [pyWords, if_neg hc]
    intro w hw
    have hc' : pySpace c = false := by
      cases hqc : pySpace c with
      | true => exact absurd hqc hc
      | false => rfl
    rcases List.mem_cons.mp hw with rfl | hw'
    · refine ⟨by simp, ?_⟩
      intro ch hch
      rcases List.mem_cons.mp hch with rfl | hch'
      · exact hc'
      · have := List.mem_takeWhile_imp hch'
        simpa using this
    · exact ih w hw'

theorem takeWhile_all {α : Type} {q : α → Bool} {l : List α}
    (h : ∀ x ∈ l, q x = true) : l.takeWhile q = l := by
  induction l with
  | nil => simp
  | cons a as ih =>
    rw [List.takeWhile_cons, if_pos (h a (List.mem_cons_self a as))]
    rw [ih (fun x hx => h x (List.mem_cons_of_mem a hx))]

theorem dropWhile_all {α : Type} {q : α → Bool} {l : List α}
    (h : ∀ x ∈ l, q x = true) : l.dropWhile q = [] := by
  induction l with
  | nil => simp
  | cons a as ih =>
    rw [List.dropWhile_cons, if_pos (h a (List.mem_cons_self a as))]
    exact ih (fun x hx => h x (List.mem_cons_of_mem a hx))

theorem pyWords_join (ws : List (List Char))
    (h : ∀ w ∈ ws, w ≠ [] ∧ ∀ ch ∈ w, pySpace ch = false) :
    pyWords (joinSp ws) = ws := by
  induction ws with
  | nil => simp [joinSp, pyWords]
  | cons w ws' ih =>
    obtain ⟨hw, hwns⟩ := h w (List.mem_cons_self w ws')
    cases w with
    | nil => exact absurd rfl hw
    | cons a t =>
      have ha : pySpace a = false := hwns a (List.mem_cons_self a t)
      have hts : ∀ x ∈ t, (fun d => !pySpace d) x = true := by
        intro x hx
        simp [hwns x (List.mem_cons_of_mem a hx)]
      cases ws' with
      | nil =>
        show pyWords (a :: t) = [a :: t]
        rw [pyWords, if_neg (by simp [ha])]
        rw [takeWhile_all hts, dropWhile_all hts]
        simp [pyWords]
      | cons w2 ws'' =>
        have hjoin : joinSp ((a :: t) :: w2 :: ws'') = (a :: t) ++ ' ' :: joinSp (w2 :: ws'') :=
          rfl
        rw [hjoin, List.cons_append, pyWords, if_neg (by simp [ha])]
        rw [takeWhile_append_of_all hts, dropWhile_append_of_all hts]
        rw [List.takeWhile_cons, if_neg (by simp [pySpace])]
        rw [List.dropWhile_cons, if_neg (by simp [pySpace])]
        rw [List.append_nil]
        rw [pyWords, if_pos (by simp [pySpace])]
        rw [ih (fun x hx => h x (List.mem_cons_of_mem _ hx))]

theorem pyWords_append_nonspace {d : Char} (hd : pySpace d = false) :
    ∀ (cs : List Char), (∀ c', cs.getLast? = some c' → pySpace c' = false) → cs ≠ [] →
      (pyWords (cs ++ [d])).length = (pyWords cs).length := by
  intro cs
  induction cs using pyWords.induct with
  | case1 =>
    intro _ h
    exact absurd rfl h
  | case2 c cs hc ih =>
    intro hlast _
    cases cs with
    | nil =>
      have hns := hlast c (by simp)
      rw [hc] at hns
      exact absurd hns (by decide)
    | cons b bs =>
      have hlast' : ∀ c', (b :: bs).getLast? = some c' → pySpace c' = false := by
        intro c' h'
        exact hlast c' (by rw [List.getLast?_cons_cons]; exact h')
      have h1 : pyWords ((c :: b :: bs) ++ [d]) = pyWords ((b :: bs) ++ [d]) := by
        rw [List.cons_append, pyWords, if_pos hc]
      have h2 : pyWords (c :: b :: bs) = pyWords (b :: bs) := by
        rw [pyWords, if_pos hc]
      rw [h1, h2]
      exact ih hlast' (by simp)
  | case3 c cs hc ih =>
    intro hlast _
    by_cases hall : ∀ x ∈ cs, (fun d => !pySpace d) x = true
    · have hta : (cs ++ [d]).takeWhile (fun d => !pySpace d) = cs ++ [d] := by
        apply takeWhile_all
        intro x hx
        rcases List.mem_append.mp hx with hx' | hx'
        · exact hall x hx'
        · rcases List.mem_singleton.mp hx' with rfl
          simp [hd]
      have hda : (cs ++ [d]).dropWhile (fun d => !pySpace d) = [] := by
        apply dropWhile_all
        intro x hx
        rcases List.mem_append.mp hx with hx' | hx'
        · exact hall x hx'
        · rcases List.mem_singleton.mp hx' with rfl
          simp [hd]
      have hL : pyWords (c :: (cs ++ [d])) = [c :: (cs ++ [d])] := by
        rw [pyWords, if_neg hc, hta, hda]
        simp [pyWords]
      have hR : pyWords (c :: cs) = [c :: cs] := by
        rw [pyWords, if_neg hc, takeWhile_all hall, dropWhile_all hall]
        simp [pyWords]
      rw [List.cons_append, hL, hR]
      rfl
    · have h3 : (cs ++ [d]).dropWhile (fun d => !pySpace d) =
          cs.dropWhile (fun d => !pySpace d) ++ [d] := dropWhile_append_of_exists hall
      have hne : cs.dropWhile (fun d => !pySpace d) ≠ [] := dropWhile_ne_nil_of_exists hall
      have hcsne : cs ≠ [] := by
        intro hnil
        rw [hnil] at hall
        exact hall (by simp)
      have hlast2 : ∀ c', (cs.dropWhile (fun d => !pySpace d)).getLast? = some c' →
          pySpace c' = false := by
        intro c' h'
        rw [getLast?_dropWhile hne] at h'
        cases cs with
        | nil => exact absurd rfl hcsne
        | cons b bs => exact hlast c' (by rw [List.getLast?_cons_cons]; exact h')
      have hL : pyWords (c :: (cs ++ [d])) =
          (c :: (cs ++ [d]).takeWhile (fun d => !pySpace d)) ::
            pyWords ((cs ++ [d]).dropWhile (fun d => !pySpace d)) := by
        rw [pyWords, if_neg hc]
      have hR : pyWords (c :: cs) =
          (c :: cs.takeWhile (fun d => !pySpace d)) ::
            pyWords (cs.dropWhile (fun d => !pySpace d)) := by
        rw [pyWords, if_neg hc]
      rw [List.cons_append, hL, hR]
      simp only [List.length_cons, Nat.add_right_cancel_iff]
      rw [h3]
      exact ih hlast2 hne

theorem pyStripList_last {cs : List Char} {c : Char}
    (h : (pyStripList cs).getLast? = some c) : pySpace c = false := by
  rw [pyStripList, List.getLast?_reverse] at h
  exact head?_dropWhile h

theorem toList_ne_nil {s : String} (h : s ≠ "") : s.toList ≠ [] := by
  intro hnil
  apply h
  cases s with
  | mk data =>
    cases data with
    | nil => rfl
    | cons c r => exact absurd hnil (by simp [String.toList])

theorem joinSp_ne_nil {ws : List (List Char)} (hne : ws ≠ [])
    (h : ∀ w ∈ ws, w ≠ []) : joinSp ws ≠ [] := by
  cases ws with
  | nil => exact absurd rfl hne
  | cons w ws' =>
    cases ws' with
    | nil => simpa [joinSp] using h w (by simp)
    | cons w2 ws'' =>
      show w ++ ' ' :: joinSp (w2 :: ws'') ≠ []
      simp

theorem joinSp_getLast_nonspace {ws : List (List Char)}
    (h : ∀ w ∈ ws, w ≠ [] ∧ ∀ ch ∈ w, pySpace ch = false) :
    ∀ c, (joinSp ws).getLast? = some c → pySpace c = false := by
  induction ws with
  | nil =>
    intro c hc
    simp [joinSp] at hc
  | cons w ws' ih =>
    intro c hc
    cases ws' with
    | nil =>
      have hmem : c ∈ w.getLast? := by
        rw [Option.mem_def]
        exact hc
      obtain ⟨hwne, heq⟩ := List.mem_getLast?_eq_getLast hmem
      exact (h w (by simp)).2 c (heq ▸ List.getLast_mem hwne)
    | cons w2 ws'' =>
      have hj : joinSp (w :: w2 :: ws'') = w ++ ' ' :: joinSp (w2 :: ws'') := rfl
      rw [hj, List.getLast?_append_of_ne_nil _ (by simp)] at hc
      have hjoin_ne : joinSp (w2 :: ws'') ≠ [] :=
        joinSp_ne_nil (by simp) (fun x hx => (h x (List.mem_cons_of_mem _ hx)).1)
      cases ht : joinSp (w2 :: ws'') with
      | nil => exact absurd ht hjoin_ne
      | cons x xs =>
        rw [ht, List.getLast?_cons_cons] at hc
        exact ih (fun x hx => h x (List.mem_cons_of_mem _ hx)) c (ht ▸ hc)

theorem endsTerminal_append_dot (s : String) : endsTerminal (s ++ ".") = true := by
  rw [endsTerminal]
  have hl : (s ++ ".").toList = s.toList ++ ['.'] := by
    show (s ++ ".").data = s.data ++ ['.']
    rw [String.data_append]
  rw [hl, List.getLast?_concat]
  rfl

theorem wordCount_append_dot {s : String} (hne : s ≠ "")
    (hlast : ∀ c, s.toList.getLast? = some c → pySpace c = false) :
    wordCount (s ++ ".") = wordCount s := by
  rw [wordCount, wordCount]
  have hl : (s ++ ".").toList = s.toList ++ ['.'] := by
    show (s ++ ".").data = s.data ++ ['.']
    rw [String.data_append]
  rw [hl]
  refine pyWords_append_nonspace (by decide) s.toList (fun c' hc' => hlast c' hc') ?_
  exact toList_ne_nil hne

theorem processReason_spec {rs : String} (hne : pyStrip rs ≠ "") :
    processReason (pyStrip rs) ≠ "" ∧ wordCount (processReason (pyStrip rs)) ≤ 30 ∧
      endsTerminal (processReason (pyStrip rs)) = true := by
  have hlast : ∀ c, (pyStrip rs).toList.getLast? = some c → pySpace c = false :=
    fun c hc => pyStripList_last hc
  simp only [processReason]
  by_cases hlen : (pyWords (pyStrip rs).toList).length > 30
  · simp only [hlen, if_true]
    have hwprops : ∀ w ∈ (pyWords (pyStrip rs).toList).take 30,
        w ≠ [] ∧ ∀ ch ∈ w, pySpace ch = false :=
      fun w hw => pyWords_all (pyStrip rs).toList w (List.take_subset 30 _ hw)
    have hwlen : ((pyWords (pyStrip rs).toList).take 30).length = 30 := by
      rw [List.length_take]
      omega
    have hwne : (pyWords (pyStrip rs).toList).take 30 ≠ [] := by
      intro hnil
      rw [hnil] at hwlen
      simp at hwlen
    have hjoin_ne : joinSp ((pyWords (pyStrip rs).toList).take 30) ≠ [] :=
      joinSp_ne_nil hwne (fun w hw => (hwprops w hw).1)
    have hcount : wordCount (⟨joinSp ((pyWords (pyStrip rs).toList).take 30)⟩ : String) = 30 := by
      rw [wordCount]
      show (pyWords (joinSp ((pyWords (pyStrip rs).toList).take 30))).length = 30
      rw [pyWords_join _ hwprops]
      exact hwlen
    have hneJ : (⟨joinSp ((pyWords (pyStrip rs).toList).take 30)⟩ : String) ≠ "" :=
      string_ne_of_data_ne hjoin_ne
    have hlastJ : ∀ c,
        (⟨joinSp ((pyWords (pyStrip rs).toList).take 30)⟩ : String).toList.getLast? = some c →
        pySpace c = false :=
      fun c hc => joinSp_getLast_nonspace hwprops c hc
    by_cases hterm :
        endsTerminal (⟨joinSp ((pyWords (pyStrip rs).toList).take 30)⟩ : String) = true
    · simp only [hterm, Bool.not_true, Bool.false_eq_true, if_false]
      exact ⟨hneJ, le_of_eq hcount, trivial⟩
    · have hterm' : endsTerminal
          (⟨joinSp ((pyWords (pyStrip rs).toList).take 30)⟩ : String) = false := by
        cases hh : endsTerminal (⟨joinSp ((pyWords (pyStrip rs).toList).take 30)⟩ : String) with
        | true => exact absurd hh hterm
        | false => rfl
      simp only [hterm', Bool.not_false, if_true]
      refine ⟨append_dot_ne_empty _, ?_, endsTerminal_append_dot _⟩
      rw [wordCount_append_dot hneJ hlastJ]
      exact le_of_eq hcount
  · simp only [hlen, if_false]
    have hcount : wordCount (pyStrip rs) ≤ 30 := by
      rw [wordCount]
      omega
    by_cases hterm : endsTerminal (pyStrip rs) = true
    · simp only [hterm, Bool.not_true, Bool.false_eq_true, if_false]
      exact ⟨hne, hcount, trivial⟩
    · have hterm' : endsTerminal (pyStrip rs) = false := by
        cases hh : endsTerminal (pyStrip rs) with
        | true => exact absurd hh hterm
        | false => rfl
      simp only [hterm', Bool.not_false, if_true]
      refine ⟨append_dot_ne_empty _, ?_, endsTerminal_append_dot _⟩
      rw [wordCount_append_dot hne hlast]
      exact hcount

theorem dPut_mem {m : List (String × String)} {k v : String} {kv : String × String}
    (h : kv ∈ dPut m k v) : kv.2 = v ∨ kv ∈ m := by
  induction m with
  | nil =>
    simp only [dPut, List.mem_singleton] at h
    left
    rw [h]
  | cons a as ih =>
    rw [dPut] at h
    split_ifs at h with hk
    · rcases List.mem_cons.mp h with rfl | h'
      · left
        rfl
      · right
        exact List.mem_cons_of_mem a h'
    · rcases List.mem_cons.mp h with rfl | h'
      · right
        exact List.mem_cons_self _ _
      · rcases ih h' with hv | hm
        · left
          exact hv
        · right
          exact List.mem_cons_of_mem a hm

theorem reasonStep_pres {acc : List (String × String)} {obj : JVal}
    (hacc : ∀ kv ∈ acc, kv.2 ≠ "" ∧ wordCount kv.2 ≤ 30 ∧ endsTerminal kv.2 = true) :
    ∀ kv ∈ reasonStep acc obj, kv.2 ≠ "" ∧ wordCount kv.2 ≤ 30 ∧ endsTerminal kv.2 = true := by
  cases obj with
  | jobj kvs =>
    simp only [reasonStep]
    cases h1 : dGet kvs "id" with
    | none => exact hacc
    | some idv =>
      cases h2 : dGet kvs "reason" with
      | none => exact hacc
      | some rv =>
        cases rv with
        | jstr rsv =>
          by_cases hr : (pyStrip rsv == "") = true
          · simp only [hr, if_true]
            exact hacc
          · have hr' : (pyStrip rsv == "") = false := by
              cases hh : (pyStrip rsv == "") with
              | true => exact absurd hh hr
              | false => rfl
            simp only [hr', Bool.false_eq_true, if_false]
            intro kv hkv
            rcases dPut_mem hkv with hv | hm
            · have hnz : pyStrip rsv ≠ "" := by
                intro he
                rw [he] at hr'
                simp at hr'
              rw [hv]
              exact processReason_spec hnz
            · exact hacc kv hm
        | jnull => exact hacc
        | jbool b => exact hacc
        | jnum q => exact hacc
        | jarr xs => exact hacc
        | jobj kvs2 => exact hacc
  | jnull => exact hacc
  | jbool b => exact hacc
  | jnum q => exact hacc
  | jstr s => exact hacc
  | jarr xs => exact hacc

theorem foldl_reasonStep_pres (objs : List JVal) :
    ∀ (acc : List (String × String)),
      (∀ kv ∈ acc, kv.2 ≠ "" ∧ wordCount kv.2 ≤ 30 ∧ endsTerminal kv.2 = true) →
      ∀ kv ∈ objs.foldl reasonStep acc,
        kv.2 ≠ "" ∧ wordCount kv.2 ≤ 30 ∧ endsTerminal kv.2 = true := by
  induction objs with
  | nil =>
    intro acc hacc
    simpa using hacc
  | cons obj rest ih =>
    intro acc hacc
    rw [List.foldl_cons]
    exact ih _ (reasonStep_pres hacc)

theorem genReasons_shape (jp : String → Option JVal) (ut : String) (persona : Persona)
    (top : List MatchRow) (reply : Option String) :
    generate_reasons_for_top_k jp ut persona top reply = [] ∨
      ∃ objs : List JVal,
        generate_reasons_for_top_k jp ut persona top reply = objs.foldl reasonStep [] := by
  cases reply with
  | none =>
    left
    rfl
  | some raw =>
    simp only [generate_reasons_for_top_k]
    by_cases hraw : (raw == "") = true
    · rw [if_pos hraw]
      left
      rfl
    · rw [if_neg hraw]
      cases hjp : jp raw with
      | some v =>
        cases v with
        | jarr objs =>
          right
          exact ⟨objs, rfl⟩
        | jnull => left; rfl
        | jbool b => left; rfl
        | jnum q => left; rfl
        | jstr s => left; rfl
        | jobj kvs => left; rfl
      | none =>
        cases hbs : bracketSlice raw with
        | none =>
          left
          simp [hbs]
        | some sub =>
          cases hjp2 : jp sub with
          | none =>
            left
            simp [hbs, hjp2]
          | some v =>
            cases v with
            | jarr objs =>
              right
              refine ⟨objs, ?_⟩
              simp [hbs, hjp2]
            | jnull => left; simp [hbs, hjp2]
            | jbool b => left; simp [hbs, hjp2]
            | jnum q => left; simp [hbs, hjp2]
            | jstr s => left; simp [hbs, hjp2]
            | jobj kvs => left; simp [hbs, hjp2]

/-! ### Claim C7 -/

/-- C7 (counterexample): `generate_reasons_for_top_k` does NOT drop objects
with unrecognized ids: with no top matches at all, a reply containing an object
with id "x" still produces an entry keyed "x", so not every key is the
stringified id of a given match. -/
theorem C7_counterexample_unrecognized_id_kept :
    ¬ (∀ kv ∈ generate_reasons_for_top_k
        (fun s => if s = "R" then
          some (.jarr [.jobj [("id", .jstr "x"), ("reason", .jstr "Nice car")]]) else none)
        "u" {} ([] : List MatchRow) (some "R"),
        ∃ m ∈ ([] : List MatchRow), pyStr ((m.get "id").getD .jnull) = kv.1) := by
  intro h
  have heval : generate_reasons_for_top_k
      (fun s => if s = "R" then
        some (.jarr [.jobj [("id", .jstr "x"), ("reason", .jstr "Nice car")]]) else none)
      "u" {} ([] : List MatchRow) (some "R") = [("x", "Nice car.")] := by
    simp +decide [generate_reasons_for_top_k, reasonStep, processReason, pyWords, pyStrip,
      pyStripList, pySpace, dGet, dPut, pyStr, endsTerminal, joinSp, wordCount]
  obtain ⟨m, hm, _⟩ := h ("x", "Nice car.") (by rw [heval]; exact List.mem_singleton.mpr rfl)
  exact absurd hm (List.not_mem_nil m)

/-- C7 (amended): every entry of the mapping returned by
`generate_reasons_for_top_k` is well-formed on the VALUE side — a non-empty
reason of at most 30 words ending in terminal punctuation — but the keys are
the stringified `id` fields of the reply's objects, NOT checked against the
given top matches (unrecognized ids are kept, not dropped). -/
theorem C7_amended_generate_reasons_values_wellformed (jp : String → Option JVal)
    (user_text : String) (persona : Persona) (top_matches : List MatchRow)
    (reply : Option String) :
    ∀ kv ∈ generate_reasons_for_top_k jp user_text persona top_matches reply,
      kv.2 ≠ "" ∧ wordCount kv.2 ≤ 30 ∧ endsTerminal kv.2 = true := by
  rcases genReasons_shape jp user_text persona top_matches reply with hnil | ⟨objs, hfold⟩
  · rw [hnil]
    intro kv hkv
    exact absurd hkv (List.not_mem_nil kv)
  · rw [hfold]
    exact foldl_reasonStep_pres objs [] (by intro kv hkv; exact absurd hkv (List.not_mem_nil kv))

/-- C7 (witness): the amended theorem applied to a concrete reply carrying one
valid object; the produced entry is non-empty, within 30 words, and terminally
punctuated. -/
theorem C7_amended_witness :
    ("x", "Nice car.") ∈ generate_reasons_for_top_k
      (fun s => if s = "Q" then
        some (.jarr [.jobj [("id", .jstr "x"), ("reason", .jstr "Nice car")]]) else none)
      "v" {} ([] : List MatchRow) (some "Q") ∧
    ("Nice car." ≠ "" ∧ wordCount "Nice car." ≤ 30 ∧ endsTerminal "Nice car." = true) := by
  have heval : generate_reasons_for_top_k
      (fun s => if s = "Q" then
        some (.jarr [.jobj [("id", .jstr "x"), ("reason", .jstr "Nice car")]]) else none)
      "v" {} ([] : List MatchRow) (some "Q") = [("x", "Nice car.")] := by
    simp +decide [generate_reasons_for_top_k, reasonStep, processReason, pyWords, pyStrip,
      pyStripList, pySpace, dGet, dPut, pyStr, endsTerminal, joinSp, wordCount]
  have hmem : ("x", "Nice car.") ∈ generate_reasons_for_top_k
      (fun s => if s = "Q" then
        some (.jarr [.jobj [("id", .jstr "x"), ("reason", .jstr "Nice car")]]) else none)
      "v" {} ([] : List MatchRow) (some "Q") := by
    rw [heval]
    exact List.mem_singleton.mpr rfl
  exact ⟨hmem, C7_amended_generate_reasons_values_wellformed _ "v" {} [] (some "Q")
    ("x", "Nice car.") hmem⟩

/-! ### Dictionary lemmas -/

theorem dGet_cons (ka : String) (va : JVal) (rest : PyDict) (k : String) :
    dGet ((ka, va) :: rest) k = if ka == k then some va else dGet rest k := by
  simp only [dGet, List.find?]
  cases h : (ka == k) <;> simp [h]

theorem dGet_dSet (d : PyDict) (k k' : String) (v : JVal) :
    dGet (dSet d k v) k' = if k' = k then some v else dGet d k' := by
  induction d with
  | nil =>
    show dGet [(k, v)] k' = _
    rw [dGet_cons]
    by_cases h : k' = k
    · subst h
      simp
    · simp [dGet, h, Ne.symm h]
  | cons a rest ih =>
    obtain ⟨ka, va⟩ := a
    by_cases hka : ka = k
    · subst hka
      have hset : dSet ((ka, va) :: rest) ka v = (ka, v) :: rest := by
        simp [dSet]
      rw [hset, dGet_cons, dGet_cons]
      by_cases h : k' = ka
      · subst h
        simp
      · simp [h, Ne.symm h]
    · have hset : dSet ((ka, va) :: rest) k v = (ka, va) :: dSet rest k v := by
        simp [dSet, hka]
      rw [hset, dGet_cons, dGet_cons, ih]
      by_cases h2 : ka = k'
      · subst h2
        simp [hka]
      · simp [h2]

theorem dGet_append (d1 d2 : PyDict) (k : String) :
    dGet (d1 ++ d2) k =
      match dGet d1 k with
      | some w => some w
      | none => dGet d2 k := by
  induction d1 with
  | nil => simp [dGet]
  | cons a rest ih =>
    obtain ⟨ka, va⟩ := a
    rw [List.cons_append, dGet_cons, dGet_cons]
    cases h : (ka == k) with
    | true => simp
    | false =>
      simp only [Bool.false_eq_true, if_false]
      exact ih

theorem dGet_dSetDefault_ne {k k' : String} (d : PyDict) (v : JVal) (h : k' ≠ k) :
    dGet (dSetDefault d k v) k' = dGet d k' := by
  rw [dSetDefault]
  split_ifs with hs
  · rfl
  · rw [dGet_append]
    cases hg : dGet d k' with
    | some w => simp
    | none =>
      simp only []
      rw [dGet_cons]
      have hkk : (k == k') = false := by
        simp only [beq_eq_false_iff_ne]
        exact fun he => h he.symm
      simp [dGet, hkk]

theorem dGet_dSetDefault_self (d : PyDict) (k : String) (v : JVal) :
    dGet (dSetDefault d k v) k =
      if (dGet d k).isSome then dGet d k else some v := by
  rw [dSetDefault]
  split_ifs with hs
  · rfl
  · rw [dGet_append]
    cases hg : dGet d k with
    | some w => simp [hg] at hs
    | none =>
      simp only []
      rw [dGet_cons]
      simp

theorem defaults_usage_iter (d : PyDict) (hu : optIter (dGet d "usage") = true) :
    ∃ vu, dGet (enrichDefaults d) "usage" = some vu ∧ optIter (some vu) = true := by
  have h : dGet (enrichDefaults d) "usage" =
      if (dGet d "usage").isSome then dGet d "usage" else some (.jarr []) := by
    simp only [enrichDefaults]
    rw [dGet_dSetDefault_ne _ _ (by decide), dGet_dSetDefault_ne _ _ (by decide),
        dGet_dSetDefault_ne _ _ (by decide), dGet_dSetDefault_self,
        dGet_dSetDefault_ne _ _ (by decide), dGet_dSetDefault_ne _ _ (by decide)]
  rw [h]
  cases hg : dGet d "usage" with
  | none => exact ⟨.jarr [], by simp, rfl⟩
  | some v =>
    refine ⟨v, by simp, ?_⟩
    rw [hg] at hu
    exact hu

theorem defaults_prefs_iter (d : PyDict) (hp : optIter (dGet d "preferences") = true) :
    ∃ vp, dGet (enrichDefaults d) "preferences" = some vp ∧ optIter (some vp) = true := by
  have h : dGet (enrichDefaults d) "preferences" =
      if (dGet d "preferences").isSome then dGet d "preferences" else some (.jarr []) := by
    simp only [enrichDefaults]
    rw [dGet_dSetDefault_ne _ _ (by decide), dGet_dSetDefault_ne _ _ (by decide),
        dGet_dSetDefault_self, dGet_dSetDefault_ne _ _ (by decide),
        dGet_dSetDefault_ne _ _ (by decide), dGet_dSetDefault_ne _ _ (by decide)]
  rw [h]
  cases hg : dGet d "preferences" with
  | none => exact ⟨.jarr [], by simp, rfl⟩
  | some v =>
    refine ⟨v, by simp, ?_⟩
    rw [hg] at hp
    exact hp

theorem defaults_btp_arr (d : PyDict) (hb : optArr (dGet d "body_type_preference") = true) :
    ∃ xs, dGet (enrichDefaults d) "body_type_preference" = some (.jarr xs) := by
  have h : dGet (enrichDefaults d) "body_type_preference" =
      if (dGet d "body_type_preference").isSome then dGet d "body_type_preference"
      else some (.jarr []) := by
    simp only [enrichDefaults]
    rw [dGet_dSetDefault_ne _ _ (by decide), dGet_dSetDefault_self,
        dGet_dSetDefault_ne _ _ (by decide), dGet_dSetDefault_ne _ _ (by decide),
        dGet_dSetDefault_ne _ _ (by decide), dGet_dSetDefault_ne _ _ (by decide)]
  rw [h]
  cases hg : dGet d "body_type_preference" with
  | none => exact ⟨[], by simp⟩
  | some v =>
    rw [hg] at hb
    cases v with
    | jarr xs => exact ⟨xs, by simp⟩
    | jnull => simp [optArr] at hb
    | jbool b => simp [optArr] at hb
    | jnum q => simp [optArr] at hb
    | jstr s => simp [optArr] at hb
    | jobj kvs => simp [optArr] at hb

theorem defaults_keys (d : PyDict) :
    ∀ k ∈ requiredKeys, (dGet (enrichDefaults d) k).isSome := by
  intro k hk
  have hself : ∀ (d0 : PyDict) (k0 : String) (v0 : JVal),
      (dGet (dSetDefault d0 k0 v0) k0).isSome := by
    intro d0 k0 v0
    rw [dGet_dSetDefault_self]
    cases hg : dGet d0 k0 <;> simp
  have hpres : ∀ (d0 : PyDict) (k0 k1 : String) (v0 : JVal),
      (dGet d0 k1).isSome → (dGet (dSetDefault d0 k0 v0) k1).isSome := by
    intro d0 k0 k1 v0 hs
    by_cases he : k1 = k0
    · subst he
      exact hself d0 k1 v0
    · rw [dGet_dSetDefault_ne _ _ he]
      exact hs
  simp only [requiredKeys, List.mem_cons, List.not_mem_nil, or_false] at hk
  simp only [enrichDefaults]
  rcases hk with rfl | rfl | rfl | rfl | rfl | rfl
  · exact hpres _ _ _ _ (hpres _ _ _ _ (hpres _ _ _ _ (hpres _ _ _ _ (hpres _ _ _ _
      (hself _ _ _)))))
  · exact hpres _ _ _ _ (hpres _ _ _ _ (hpres _ _ _ _ (hpres _ _ _ _ (hself _ _ _))))
  · exact hpres _ _ _ _ (hpres _ _ _ _ (hpres _ _ _ _ (hself _ _ _)))
  · exact hpres _ _ _ _ (hpres _ _ _ _ (hself _ _ _))
  · exact hpres _ _ _ _ (hself _ _ _)
  · exact hself _ _ _

theorem dSet_pres_isSome (d : PyDict) (k0 k : String) (v : JVal)
    (hk : (dGet d k).isSome) : (dGet (dSet d k0 v) k).isSome := by
  rw [dGet_dSet]
  split_ifs <;> simp [hk]

theorem dSet_ne_get (d : PyDict) (k0 k : String) (v : JVal) (h : k ≠ k0) :
    dGet (dSet d k0 v) k = dGet d k := by
  rw [dGet_dSet, if_neg h]

theorem jStrSet_ok {v : JVal} (h : optIter (some v) = true) :
    ∃ l, jStrSet v = .ok l := by
  cases v with
  | jarr xs => exact ⟨_, rfl⟩
  | jstr s => exact ⟨_, rfl⟩
  | jobj kvs => exact ⟨_, rfl⟩
  | jnull => simp [optIter] at h
  | jbool b => simp [optIter] at h
  | jnum q => simp [optIter] at h

theorem enrichFam_keys (text : String) (famHit : Bool) (d : PyDict)
    (hkeys : ∀ k ∈ requiredKeys, (dGet d k).isSome) :
    ∀ k ∈ requiredKeys, (dGet (enrichFam text famHit d) k).isSome := by
  intro k hk
  simp only [enrichFam]
  split_ifs <;> first
    | exact dSet_pres_isSome _ _ _ _ (hkeys k hk)
    | exact hkeys k hk

theorem enrichFam_btp (text : String) (famHit : Bool) (d : PyDict) (xs : List JVal)
    (hb : dGet d "body_type_preference" = some (.jarr xs)) :
    dGet (enrichFam text famHit d) "body_type_preference" = some (.jarr xs) := by
  simp only [enrichFam]
  split_ifs <;> first
    | rw [dSet_ne_get _ _ _ _ (by decide)]; exact hb
    | exact hb

theorem enrichBudget_keys (text : String) (d : PyDict)
    (hkeys : ∀ k ∈ requiredKeys, (dGet d k).isSome) :
    ∀ k ∈ requiredKeys, (dGet (enrichBudget text d) k).isSome := by
  intro k hk
  simp only [enrichBudget]
  split_ifs <;> first
    | exact dSet_pres_isSome _ _ _ _ (hkeys k hk)
    | exact hkeys k hk

theorem enrichBudget_btp (text : String) (d : PyDict) (xs : List JVal)
    (hb : dGet d "body_type_preference" = some (.jarr xs)) :
    dGet (enrichBudget text d) "body_type_preference" = some (.jarr xs) := by
  simp only [enrichBudget]
  split_ifs <;> first
    | rw [dSet_ne_get _ _ _ _ (by decide)]; exact hb
    | exact hb

theorem enrichMidsize_ok (text : String) (d : PyDict) (xs : List JVal)
    (hb : dGet d "body_type_preference" = some (.jarr xs)) :
    ∃ d' ys, enrichMidsize text d = .ok d' ∧
      dGet d' "body_type_preference" = some (.jarr ys) ∧
      ∀ k, (dGet d k).isSome → (dGet d' k).isSome := by
  simp only [enrichMidsize, hb, Option.getD_some]
  split_ifs with ht
  · cases han : xs.any (fun e => jEqStr e "sedan") with
    | false =>
      refine ⟨dSet d "body_type_preference" (.jarr (xs ++ [.jstr "sedan"])),
        xs ++ [.jstr "sedan"], ?_, ?_, ?_⟩
      · simp [jContains, jAppend, han, Bind.bind, Except.bind, Pure.pure, Except.pure]
      · rw [dGet_dSet, if_pos rfl]
      · intro k hk
        exact dSet_pres_isSome _ _ _ _ hk
    | true =>
      refine ⟨d, xs, ?_, hb, fun k hk => hk⟩
      simp [jContains, jAppend, han, Bind.bind, Except.bind, Pure.pure, Except.pure]
  · exact ⟨d, xs, rfl, hb, fun k hk => hk⟩

theorem enrichOffroad_ok (usage : List String) (d : PyDict) (ys : List JVal)
    (hb : dGet d "body_type_preference" = some (.jarr ys)) :
    ∃ d', enrichOffroad usage d = .ok d' ∧
      ∀ k, (dGet d k).isSome → (dGet d' k).isSome := by
  simp only [enrichOffroad, hb, Option.getD_some]
  split_ifs with h
  · refine ⟨dSet d "body_type_preference" (.jarr (ys ++ [.jstr "suv"])), ?_, ?_⟩
    · simp [jAppend, Bind.bind, Except.bind, Pure.pure, Except.pure]
    · intro k hk
      exact dSet_pres_isSome _ _ _ _ hk
  · exact ⟨d, rfl, fun k hk => hk⟩

theorem enrich_ok (d0 : PyDict) (ut : String) (h : enrichReady d0 = true) :
    ∃ d', _enrich_from_text d0 ut = .ok d' ∧
      ∀ k ∈ requiredKeys, (dGet d' k).isSome := by
  simp only [enrichReady, Bool.and_eq_true] at h
  obtain ⟨⟨hu, hp⟩, hbt⟩ := h
  obtain ⟨vu, hvu, hiu⟩ := defaults_usage_iter d0 hu
  obtain ⟨vp, hvp, hip⟩ := defaults_prefs_iter d0 hp
  obtain ⟨xs, hxs⟩ := defaults_btp_arr d0 hbt
  have hkeys := defaults_keys d0
  obtain ⟨u0, hju⟩ := jStrSet_ok hiu
  obtain ⟨p0, hjp⟩ := jStrSet_ok hip
  have hb2 := enrichBudget_btp (pyLower ut) _ xs
    (enrichFam_btp (pyLower ut)
      (pyIn "family" (pyLower ut) || pyIn "families" (pyLower ut) ||
        pyIn "kids" (pyLower ut)) _ xs hxs)
  have hk2 := enrichBudget_keys (pyLower ut) _
    (enrichFam_keys (pyLower ut)
      (pyIn "family" (pyLower ut) || pyIn "families" (pyLower ut) ||
        pyIn "kids" (pyLower ut)) _ hkeys)
  obtain ⟨d3, ys3, hm, hb3, hpres3⟩ := enrichMidsize_ok (pyLower ut) _ xs hb2
  obtain ⟨d4, ho, hpres4⟩ :=
    enrichOffroad_ok (enrichUsage (pyLower ut) u0) _ ys3 hb3
  refine ⟨dSet (dSet d4 "usage" (.jarr ((sortStrs (enrichUsage (pyLower ut) u0)).map .jstr)))
      "preferences" (.jarr ((sortStrs (enrichPrefs (pyLower ut) p0)).map .jstr)), ?_, ?_⟩
  · simp only [_enrich_from_text, hvu, hvp, Option.getD_some, hju, hjp, hm, ho,
      Bind.bind, Except.bind]
    rfl
  · intro k hk
    exact dSet_pres_isSome _ _ _ _ (dSet_pres_isSome _ _ _ _
      (hpres4 k (hpres3 k (hk2 k hk))))

theorem enrichReady_defaults (d : PyDict) (h : enrichReady d = true) :
    enrichReady (enrichDefaults d) = true := by
  simp only [enrichReady, Bool.and_eq_true] at h ⊢
  obtain ⟨⟨hu, hp⟩, hb⟩ := h
  obtain ⟨vu, hvu, hiu⟩ := defaults_usage_iter d hu
  obtain ⟨vp, hvp, hip⟩ := defaults_prefs_iter d hp
  obtain ⟨xs, hxs⟩ := defaults_btp_arr d hb
  refine ⟨⟨?_, ?_⟩, ?_⟩
  · rw [hvu]
    exact hiu
  · rw [hvp]
    exact hip
  · rw [hxs]
    rfl

/-- C2: with every completion reply absent or empty, `parse_user_needs` never
raises and returns a dict holding all six intent fields. -/
theorem C2_parse_user_needs_total_on_empty (jp : String → Option JVal)
    (fence : String → Option String) (raw1 raw2 : Option String) (ut : String)
    (h1 : raw1 = none ∨ raw1 = some "") (h2 : raw2 = none ∨ raw2 = some "") :
    ∃ d, parse_user_needs jp fence raw1 raw2 ut = .ok d ∧
      ∀ k ∈ requiredKeys, (dGet d k).isSome := by
  have hready : enrichReady
      [("family_size", JVal.jnull), ("budget_band", JVal.jnull), ("usage", JVal.jarr []),
       ("preferences", JVal.jarr []), ("body_type_preference", JVal.jarr []),
       ("other", JVal.jobj [("heuristic", JVal.jbool true)])] = true := by decide
  obtain ⟨d, hd, hk⟩ := enrich_ok _ ut hready
  refine ⟨d, ?_, hk⟩
  have hred : parse_user_needs jp fence raw1 raw2 ut = _enrich_from_text
      [("family_size", JVal.jnull), ("budget_band", JVal.jnull), ("usage", JVal.jarr []),
       ("preferences", JVal.jarr []), ("body_type_preference", JVal.jarr []),
       ("other", JVal.jobj [("heuristic", JVal.jbool true)])] ut := by
    rcases h1 with rfl | rfl <;> rcases h2 with rfl | rfl <;> rfl
  rw [hred]
  exact hd

theorem C2_parse_user_needs_total_on_empty_witness :
    ∃ d, parse_user_needs (fun _ => none) (fun _ => none) none (some "") "x" = .ok d ∧
      ∀ k ∈ requiredKeys, (dGet d k).isSome :=
  C2_parse_user_needs_total_on_empty (fun _ => none) (fun _ => none) none (some "") "x"
    (Or.inl rfl) (Or.inr rfl)

theorem C5_counterexample_no_city_no_low_budget :
    ∃ d, _simple_heuristic_parse
        "I need a small family car for daily city commuting, budget around 5 lakhs" =
          .ok d ∧
      dGet d "budget_band" = some .jnull ∧
      dGet d "usage" = some (.jarr [.jstr "family"]) ∧
      ¬ dGet d "budget_band" = some (.jstr "low") := by
  refine ⟨[("family_size", .jnum 3), ("budget_band", .jnull),
           ("usage", .jarr [.jstr "family"]), ("preferences", .jarr []),
           ("body_type_preference", .jarr []),
           ("other", .jobj [("heuristic", .jbool true)])], ?_, rfl, rfl,
         fun h => JVal.noConfusion (Option.some.inj h)⟩
  rfl

/-- C5 (amended): on the text "I need a small family car for daily city
commuting, budget around 5 lakhs" the heuristic-only path yields
`family_size = 3` and a usage set containing "family", but the usage set does
NOT contain "city" (none of the seven commuting phrases of
semantic_parser_agent.py:140-143 occurs in the text) and `budget_band`
remains null (the keyword rules at lines 132-138 have no price/lakh handling
and no bare "city" or "5 lakhs" trigger). -/
theorem C5_amended_heuristic_parse :
    _simple_heuristic_parse
        "I need a small family car for daily city commuting, budget around 5 lakhs" =
      .ok [("family_size", .jnum 3), ("budget_band", .jnull),
           ("usage", .jarr [.jstr "family"]), ("preferences", .jarr []),
           ("body_type_preference", .jarr []),
           ("other", .jobj [("heuristic", .jbool true)])] ∧
    (JVal.jstr "family") ∈ [JVal.jstr "family"] ∧
    ¬ (JVal.jstr "city") ∈ [JVal.jstr "family"] :=
  ⟨rfl, List.mem_singleton.mpr rfl, fun h =>
    absurd (JVal.jstr.inj (List.mem_singleton.mp h)) (by decide)⟩

theorem normalize_shape_obj (kvs : PyDict) :
    _normalize_shape (.jobj kvs) = .ok (enrichDefaults kvs) := rfl

theorem except_bind_ok {ea a b : Type} (x : a) (f : a → Except ea b) :
    (Except.ok (ε := ea) x).bind f = f x := rfl

/-- Two raising runs of `parse_user_needs` that the claim forbids: first, the
unparseable non-truncated reply "hello world" (no fence, no brace, the load
fails) raises instead of returning an intent; second, the reply "OBJX5" whose
loaded JSON IS an object — but with `usage` an integer, so the keyword
enrichment's set comprehension raises `TypeError`, caught in the whole-reply
path and re-raised as `RuntimeError` because the reply does not look
truncated.  The second run forces the field-typing hypothesis of the amended
success side. -/
theorem C8_counterexample_raises_on_unparseable_and_ill_typed :
    parse_user_needs (fun _ => none) (fun _ => none) (some "hello world") none "x" =
      .error parseFailMsg ∧
    parse_user_needs
        (fun t => if t == "OBJX5" then some (.jobj [("usage", .jnum 5)]) else none)
        (fun _ => none) (some "OBJX5") none "x" =
      .error parseFailMsg :=
  ⟨rfl, rfl⟩

/-- C8 (amended): on a present non-empty reply `s`, whenever the extraction
chain parses an object whose fields are typed for the keyword enrichment
(`usage`/`preferences` iterable, `body_type_preference` a list, absent fields
allowed), `parse_user_needs` returns a dict with all six fields; when no JSON
value can be parsed from the reply, it falls back to the heuristic only if
the reply looks truncated and otherwise raises `RuntimeError` — it does not
return a normalized intent for every unparseable reply.  The typing
hypothesis cannot be dropped: the counterexample's second run parses an
object with an integer `usage` and still raises. -/
theorem C8_amended_parse_user_needs (jp : String → Option JVal)
    (fence : String → Option String) (raw1 raw2 : Option String) (ut s : String)
    (hraw : (if _looks_truncated raw1 then raw2 else raw1) = some s)
    (hs : (s == "") = false) :
    (∀ kvs, extractParse jp fence s = some (.jobj kvs) → enrichReady kvs = true →
      ∃ d, parse_user_needs jp fence raw1 raw2 ut = .ok d ∧
        ∀ k ∈ requiredKeys, (dGet d k).isSome) ∧
    (extractParse jp fence s = none →
      parse_user_needs jp fence raw1 raw2 ut =
        if _looks_truncated_str s then _simple_heuristic_parse ut
        else .error parseFailMsg) := by
  constructor
  · intro kvs hobj hready
    obtain ⟨d, hd, hk⟩ := enrich_ok (enrichDefaults kvs) ut (enrichReady_defaults kvs hready)
    have hnb : (_normalize_shape (.jobj kvs)).bind (fun d0 => _enrich_from_text d0 ut) =
        _enrich_from_text (enrichDefaults kvs) ut := by
      rw [normalize_shape_obj, except_bind_ok]
    simp only [extractParse] at hobj
    cases hjt : jsonTextOf fence s with
    | none =>
      simp only [hjt] at hobj
      refine ⟨d, ?_, hk⟩
      simp only [parse_user_needs, hraw]
      rw [if_neg (by simp [hs])]
      simp only [hjt, hobj, hnb, hd]
    | some jt =>
      simp only [hjt] at hobj
      refine ⟨d, ?_, hk⟩
      simp only [parse_user_needs, hraw]
      rw [if_neg (by simp [hs])]
      simp only [hjt, hobj, hnb, hd]
  · intro hnone
    simp only [extractParse] at hnone
    cases hjt : jsonTextOf fence s with
    | none =>
      simp only [hjt] at hnone
      simp only [parse_user_needs, hraw]
      rw [if_neg (by simp [hs])]
      simp only [hjt, hnone]
    | some jt =>
      simp only [hjt] at hnone
      simp only [parse_user_needs, hraw]
      rw [if_neg (by simp [hs])]
      simp only [hjt, hnone]

theorem C8_amended_witness :
    ∃ d, parse_user_needs (fun t => if t == "OBJ12" then some (.jobj []) else none)
        (fun _ => none) none (some "OBJ12") "x" = .ok d ∧
      ∀ k ∈ requiredKeys, (dGet d k).isSome :=
  (C8_amended_parse_user_needs (fun t => if t == "OBJ12" then some (.jobj []) else none)
      (fun _ => none) none (some "OBJ12") "x" "OBJ12" rfl (by decide)).1
    [] rfl (by decide)
